import Mathlib

/-!
Verification development for the weekly meal-plan generator
(`MealPlannerSpecialist` in `agents/meal_planner_agent.py`).

The Python code is shallowly embedded:
* recipe dicts become the `Recipe` structure; optional dict keys become
  `Option` fields and `dict.get(k, d)` becomes `Option.getD`;
* Python numbers are modelled as exact rationals (`ℚ`); `int(x)` is
  truncation toward zero (`pytrunc`);
* Python object identity/aliasing is made explicit with a heap
  (`List Recipe`): the selected recipes of a plan are heap indices, the
  per-slot candidate pools are lists of heap indices, and in-place field
  mutation (`recipe[k] = ...`) is a heap update at those indices;
* `random.choice` is modelled by an arbitrary stream `rng : ℕ → ℕ` of
  picks (index modulo list length), quantified over in the theorems;
* the history file read by `_get_user_meal_history_scores` is passed in
  as an already-parsed value.
-/

namespace MealPlanner

/-- A recipe dict.  `name` is always present (the code indexes `r["name"]`
directly); the nutrient fields, `prep_time` and `type` are accessed with
`.get` and are therefore optional; `ingredients` is a mapping from
ingredient name to numeric quantity (a missing mapping is modelled by the
empty list, matching `r.get("ingredients", {})`). -/
structure Recipe where
  name : String
  ingredients : List (String × Int)
  calories : Option ℚ
  protein : Option ℚ
  carbs : Option ℚ
  fat : Option ℚ
  prep_time : Option ℚ
  type : Option String
deriving DecidableEq

instance : Inhabited Recipe := ⟨⟨"", [], none, none, none, none, none, none⟩⟩

/-- Serialization of one `"key": value` pair as `json.dumps` renders it. -/
def dumpsPair (p : String × Int) : String :=
  "\"" ++ p.1 ++ "\": " ++ toString p.2

/-- Model of `json.dumps` on the ingredients dict: keys in insertion
order, `", "` between the pairs, and the literal braces around them. -/
def jsonDumps (l : List (String × Int)) : String :=
  "\x7b" ++ String.intercalate ", " (l.map dumpsPair) ++ "\x7d"

/-- Python's substring test `needle in haystack` on strings. -/
def strContains (needle haystack : String) : Prop :=
  needle.data <:+: haystack.data

instance (n h : String) : Decidable (strContains n h) :=
  inferInstanceAs (Decidable (n.data <:+: h.data))

/-- Boolean form of `strContains`, used by the executable filter. -/
def strContainsB (needle haystack : String) : Bool :=
  decide (strContains needle haystack)

/-- The per-recipe predicate of the constraint filter
(`generate_personalized_plan`, lines 58-63): keep a recipe iff its diet
tag (default `"vegetarian"`) matches, or the requested diet is
`"mixed"`, and no allergy occurs case-insensitively inside the
serialized ingredients. -/
def keepRecipe (diet_type : String) (allergies : List String) (r : Recipe) : Bool :=
  (r.type.getD "vegetarian" == diet_type || diet_type == "mixed")
    && !(allergies.any fun allergy =>
          strContainsB allergy.toLower (jsonDumps r.ingredients).toLower)

/-- The constraint filter building one slot's candidate pool. -/
def filterPool (pool : List Recipe) (diet_type : String) (allergies : List String) :
    List Recipe :=
  pool.filter (keepRecipe diet_type allergies)

/-- `_create_fallback_meal` (lines 150-161).  `String.capitalize` models
`str.title()` on the single-word slot names used by the planner. -/
def createFallbackMeal (meal_type : String) (diet_type : String) : Recipe :=
  ⟨"Fallback " ++ meal_type.capitalize,
    [("basic_food", 100), ("vegetables", 50)],
    some 300, some 15, some 40, some 8, some 15, some diet_type⟩

/-- `_calculate_nutrition_score` (lines 163-170), over the day's meal
dicts in insertion order (breakfast, lunch, dinner). -/
def calculateNutritionScore (meals : List Recipe) : ℚ :=
  let total_protein := (meals.map fun m => m.protein.getD 0).sum
  let total_carbs := (meals.map fun m => m.carbs.getD 0).sum
  let total_fat := (meals.map fun m => m.fat.getD 0).sum
  let denom := total_protein + total_carbs + total_fat
  let protein_ratio := if denom > 0 then total_protein / denom else 33/100
  min 10 (|protein_ratio - 3/10| * 100)

/-- `_calculate_variety_score` (lines 172-178).  `set(current) - set(recent)`
has as many elements as the distinct current names not in `recent`, and the
denominator is the length of the `current_meals` list itself. -/
def calculateVarietyScore (meals : List Recipe) (recent_list : List String) : ℚ :=
  let current_meals := meals.map Recipe.name
  let new_meals_card := (current_meals.dedup.filter fun n => !(recent_list.contains n)).length
  let variety_score :=
    if current_meals ≠ [] then (new_meals_card : ℚ) / current_meals.length * 10 else 5
  min 10 variety_score

/-- One day of a persisted meal plan, as `_get_user_meal_history_scores`
consumes it: `day_plan.get("meals", {}).values()`. -/
structure HistoryDay where
  meals : List Recipe
deriving DecidableEq

/-- One entry of `memory/meal_history.json`:
`{user_id, timestamp, meal_plan, ...}` with `meal_plan` a mapping from day
name to day plan (values in insertion order). -/
structure HistoryEntry where
  user_id : String
  meal_plan : List HistoryDay
deriving DecidableEq

/-- `_get_user_meal_history_scores` (lines 136-148): the meal names of the
last three entries of the whole history file (note: not filtered by user),
flattened across days and slots. -/
def getUserMealHistoryScores (history : List HistoryEntry) : List String :=
  ((history.drop (history.length - 3)).map fun entry =>
    (entry.meal_plan.map fun day_plan => day_plan.meals.map Recipe.name).flatten).flatten

/-- One day's plan as assembled by `_generate_daily_plan` (lines 120-125).
The three meal slots hold heap indices of the selected recipe objects. -/
structure DayPlan where
  breakfast : ℕ
  lunch : ℕ
  dinner : ℕ
  total_calories : ℚ
  nutrition_score : ℚ
  variety_score : ℚ
deriving DecidableEq

instance : Inhabited DayPlan := ⟨⟨0, 0, 0, 0, 0, 0⟩⟩

/-- The weekly plan together with the heap of recipe objects its days
reference (selected recipes are aliases into the candidate pools, so the
heap's initial segment is the filtered catalog itself). -/
structure WeeklyPlan where
  heap : List Recipe
  days : List DayPlan
deriving DecidableEq

/-- State threaded through the 7-day generation loop of
`generate_personalized_plan`: the recipe heap, the three per-slot used-name
sets, the position in the random stream, and the days built so far. -/
structure LoopState where
  heap : List Recipe
  usedB : List String
  usedL : List String
  usedD : List String
  k : ℕ
  days : List DayPlan
deriving DecidableEq

/-- Result of selecting one slot's recipe for one day. -/
structure PickResult where
  heap : List Recipe
  idx : ℕ
  used : List String
  k : ℕ
deriving DecidableEq

/-- `pick_recipe` (lines 97-108) combined with the `or
self._create_fallback_meal(...)` fallback at its call sites (lines
110-112).  An empty pool yields a fresh fallback object (appended to the
heap, nothing added to `used`); otherwise `random.choice` picks from the
not-yet-used candidates if any, else from the full pool, and the chosen
name is added to `used`. -/
def slotPick (rng : ℕ → ℕ) (slotName : String) (heap : List Recipe) (pool : List ℕ)
    (used : List String) (k : ℕ) : PickResult :=
  if pool = [] then
    ⟨heap ++ [createFallbackMeal slotName "vegetarian"], heap.length, used, k⟩
  else
    let candidates := pool.filter fun i => !(used.contains (heap.getD i default).name)
    let choice :=
      if candidates = [] then pool.getD (rng k % pool.length) 0
      else candidates.getD (rng k % candidates.length) 0
    ⟨heap, choice, (heap.getD choice default).name :: used, k + 1⟩

/-- `_generate_daily_plan` (lines 83-125) for one day: pick the three
slots in order (threading heap, used sets and the random stream), then
assemble the day record with the slot-specific calorie defaults and the
two scores. -/
def genStep (rng : ℕ → ℕ) (recent : List String) (poolB poolL poolD : List ℕ)
    (s : LoopState) : LoopState :=
  let r1 := slotPick rng "breakfast" s.heap poolB s.usedB s.k
  let r2 := slotPick rng "lunch" r1.heap poolL s.usedL r1.k
  let r3 := slotPick rng "dinner" r2.heap poolD s.usedD r2.k
  let b := r3.heap.getD r1.idx default
  let l := r3.heap.getD r2.idx default
  let d := r3.heap.getD r3.idx default
  let day : DayPlan :=
    ⟨r1.idx, r2.idx, r3.idx,
      b.calories.getD 300 + l.calories.getD 400 + d.calories.getD 350,
      calculateNutritionScore [b, l, d],
      calculateVarietyScore [b, l, d] recent⟩
  ⟨r3.heap, r1.used, r2.used, r3.used, r3.k, s.days ++ [day]⟩

/-- The 7-day loop of `generate_personalized_plan` (lines 66-75), run for
`n` days from the empty used sets over the initial heap. -/
def genDays (rng : ℕ → ℕ) (recent : List String) (poolB poolL poolD : List ℕ)
    (heap0 : List Recipe) (n : ℕ) : LoopState :=
  (List.range n).foldl (fun s _ => genStep rng recent poolB poolL poolD s)
    ⟨heap0, [], [], [], 0, []⟩

/-- The generation loop applied to three concrete filtered pools: the heap
starts as the concatenation of the pools and each pool is the list of its
own recipes' heap indices. -/
def runWeek (rng : ℕ → ℕ) (recent : List String) (fb fl fd : List Recipe) : LoopState :=
  genDays rng recent
    (List.range fb.length)
    ((List.range fl.length).map fun i => i + fb.length)
    ((List.range fd.length).map fun i => i + (fb.length + fl.length))
    (fb ++ fl ++ fd) 7

/-- Python's `int()` applied to a real number: truncation toward zero. -/
def pytrunc (q : ℚ) : ℤ :=
  if 0 ≤ q then ⌊q⌋ else ⌈q⌉

/-- Scaling of one optional nutrient field in `_optimize_with_ai`
(lines 190-192): present fields become `max(0, int(v * factor))`,
absent fields stay absent. -/
def scaleField (factor : ℚ) : Option ℚ → Option ℚ
  | none => none
  | some v => some ((max 0 (pytrunc (v * factor)) : ℤ) : ℚ)

/-- In-place scaling of the four numeric fields of one recipe object. -/
def scaleRecipe (factor : ℚ) (r : Recipe) : Recipe :=
  { r with
    calories := scaleField factor r.calories
    protein := scaleField factor r.protein
    carbs := scaleField factor r.carbs
    fat := scaleField factor r.fat }

/-- Mutation of the recipe object at heap index `i`. -/
def scaleAt (factor : ℚ) (heap : List Recipe) (i : ℕ) : List Recipe :=
  heap.set i (scaleRecipe factor (heap.getD i default))

/-- The inner loop of `_optimize_with_ai` over one day's three meals:
each referenced recipe object is scaled in place (so an object shared
between days is scaled once per day it appears in). -/
def normalizeDayMeals (factor : ℚ) (heap : List Recipe) (day : DayPlan) : List Recipe :=
  scaleAt factor (scaleAt factor (scaleAt factor heap day.breakfast) day.lunch) day.dinner

/-- `_optimize_with_ai` (lines 180-195): if the pre-normalization weekly
calorie total is positive, scale every meal object of every day in place
and replace every day's `total_calories` by
`int(total_calories * factor)`; otherwise return the plan unchanged. -/
def optimizeWithAi (plan : WeeklyPlan) (calorie_target : ℚ) : WeeklyPlan :=
  let total_weekly_calories := (plan.days.map DayPlan.total_calories).sum
  let target_weekly_calories := calorie_target * 7
  if total_weekly_calories > 0 then
    let adjustment_factor := target_weekly_calories / total_weekly_calories
    ⟨plan.days.foldl (normalizeDayMeals adjustment_factor) plan.heap,
      plan.days.map fun day =>
        { day with total_calories := ((pytrunc (day.total_calories * adjustment_factor) : ℤ) : ℚ) }⟩
  else plan

/-- The user-preference dict: the fields `generate_personalized_plan`
reads, optional with the defaults the code supplies
(`cuisine_preference` is read but unused and is omitted). -/
structure Preferences where
  diet_type : Option String
  calorie_target : Option ℚ
  allergies : List String
deriving DecidableEq

/-- The parsed recipe catalog, grouped by meal slot. -/
structure Catalog where
  breakfast : List Recipe
  lunch : List Recipe
  dinner : List Recipe
deriving DecidableEq

/-- `generate_personalized_plan` (lines 34-81): filter the three slot
pools by diet and allergies, run the 7-day selection loop, then apply the
calorie normalization pass. -/
def generatePersonalizedPlan (prefs : Preferences) (catalog : Catalog) (rng : ℕ → ℕ)
    (recent : List String) : WeeklyPlan :=
  let diet_type := prefs.diet_type.getD "vegetarian"
  let calorie_target := prefs.calorie_target.getD 2000
  let allergies := prefs.allergies
  let fb := filterPool catalog.breakfast diet_type allergies
  let fl := filterPool catalog.lunch diet_type allergies
  let fd := filterPool catalog.dinner diet_type allergies
  let s := runWeek rng recent fb fl fd
  optimizeWithAi ⟨s.heap, s.days⟩ calorie_target

/-! ### Derived notions used by the theorems -/

/-- The pre- or post-normalization weekly calorie total, as
`_optimize_with_ai` computes it at line 182. -/
def totalCal (plan : WeeklyPlan) : ℚ :=
  (plan.days.map DayPlan.total_calories).sum

/-- An optional nutrient value that, when present, is non-negative. -/
def OptNonneg (o : Option ℚ) : Prop :=
  ∀ x, o = some x → 0 ≤ x

instance : ∀ o : Option ℚ, Decidable (OptNonneg o)
  | none => isTrue fun x h => by cases h
  | some v =>
    decidable_of_iff (0 ≤ v)
      ⟨fun h x hx => by cases hx; exact h, fun h => h v rfl⟩

/-- All four numeric fields of a recipe are non-negative where present. -/
def RecipeNonneg (r : Recipe) : Prop :=
  OptNonneg r.calories ∧ OptNonneg r.protein ∧ OptNonneg r.carbs ∧ OptNonneg r.fat

instance (r : Recipe) : Decidable (RecipeNonneg r) :=
  inferInstanceAs
    (Decidable (OptNonneg r.calories ∧ OptNonneg r.protein ∧ OptNonneg r.carbs ∧ OptNonneg r.fat))

/-- The name of the recipe object at a heap index (selection never mutates
existing heap cells, so names read through the initial heap stay valid). -/
def nameAt (heap0 : List Recipe) (i : ℕ) : String :=
  (heap0.getD i default).name

/-- The day's three meal objects, read from a heap. -/
def mealsOfDay (heap : List Recipe) (day : DayPlan) : List Recipe :=
  [heap.getD day.breakfast default, heap.getD day.lunch default, heap.getD day.dinner default]

/-- The names a plan selected for one slot across its days. -/
def slotNames (s : LoopState) (slot : DayPlan → ℕ) : List String :=
  s.days.map fun day => (s.heap.getD (slot day) default).name

/-- The breakfast pick of one `_generate_daily_plan` call. -/
def stepB (rng : ℕ → ℕ) (poolB : List ℕ) (s : LoopState) : PickResult :=
  slotPick rng "breakfast" s.heap poolB s.usedB s.k

/-- The lunch pick of one `_generate_daily_plan` call. -/
def stepL (rng : ℕ → ℕ) (poolB poolL : List ℕ) (s : LoopState) : PickResult :=
  slotPick rng "lunch" (stepB rng poolB s).heap poolL s.usedL (stepB rng poolB s).k

/-- The dinner pick of one `_generate_daily_plan` call. -/
def stepD (rng : ℕ → ℕ) (poolB poolL poolD : List ℕ) (s : LoopState) : PickResult :=
  slotPick rng "dinner" (stepL rng poolB poolL s).heap poolD s.usedD (stepL rng poolB poolL s).k

/-- The day record one `_generate_daily_plan` call appends. -/
def dayOf (rng : ℕ → ℕ) (recent : List String) (poolB poolL poolD : List ℕ)
    (s : LoopState) : DayPlan :=
  let hp := (stepD rng poolB poolL poolD s).heap
  let b := hp.getD (stepB rng poolB s).idx default
  let l := hp.getD (stepL rng poolB poolL s).idx default
  let d := hp.getD (stepD rng poolB poolL poolD s).idx default
  ⟨(stepB rng poolB s).idx, (stepL rng poolB poolL s).idx, (stepD rng poolB poolL poolD s).idx,
    b.calories.getD 300 + l.calories.getD 400 + d.calories.getD 350,
    calculateNutritionScore [b, l, d], calculateVarietyScore [b, l, d] recent⟩

/-- Everything `_generate_daily_plan` guarantees about one assembled day
relative to the heap its slots point into: the indices are in range, the
calorie total uses the 300/400/350 slot defaults on missing calorie
fields, and the two scores are exactly the score functions applied to the
day's (unscaled) meal objects. -/
def DayOk (heap : List Recipe) (recent : List String) (day : DayPlan) : Prop :=
  day.breakfast < heap.length ∧ day.lunch < heap.length ∧ day.dinner < heap.length
    ∧ day.total_calories =
        (heap.getD day.breakfast default).calories.getD 300
          + (heap.getD day.lunch default).calories.getD 400
          + (heap.getD day.dinner default).calories.getD 350
    ∧ day.nutrition_score = calculateNutritionScore (mealsOfDay heap day)
    ∧ day.variety_score = calculateVarietyScore (mealsOfDay heap day) recent

/-- The names a loop state selected for one slot, read through the
initial heap (valid whenever the slot's picks stayed inside its pool). -/
def slotNamesAt (heap0 : List Recipe) (s : LoopState) (slot : DayPlan → ℕ) : List String :=
  s.days.map fun day => nameAt heap0 (slot day)

/-- The repeat property of a selection trace: any repeated selection
(position `j` whose name already occurred earlier) can only happen after
every name of the pool has been selected. -/
def RepP (pool : List ℕ) (heap0 : List Recipe) (names : List String) : Prop :=
  ∀ j < names.length, names.getD j "" ∈ names.take j →
    ∀ i ∈ pool, nameAt heap0 i ∈ names.take j

/-- Spec-side reading of the nutrition score as the claim words it: the
`0.33` ratio default applies exactly when the macro total is zero. -/
def nutritionScoreClaim (meals : List Recipe) : ℚ :=
  let total_protein := (meals.map fun m => m.protein.getD 0).sum
  let total_carbs := (meals.map fun m => m.carbs.getD 0).sum
  let total_fat := (meals.map fun m => m.fat.getD 0).sum
  let denom := total_protein + total_carbs + total_fat
  let ratio := if denom = 0 then 33/100 else total_protein / denom
  min 10 (|ratio - 3/10| * 100)

/-- Spec-side reading of the variety score as the claim words it:
`current` is the set of the day's meal names (so the denominator is the
number of distinct names), and `recent` is drawn from the last three
history entries of this user only. -/
def varietyScoreClaim (user_id : String) (history : List HistoryEntry)
    (meals : List Recipe) : ℚ :=
  let user_history := history.filter fun e => e.user_id == user_id
  let recent := ((user_history.drop (user_history.length - 3)).map fun entry =>
    (entry.meal_plan.map fun day_plan => day_plan.meals.map Recipe.name).flatten).flatten
  let current := (meals.map Recipe.name).toFinset
  if current.card = 0 then 5
  else min 10 (((current \ recent.toFinset).card : ℚ) / current.card * 10)

/-- The pre-normalization loop state of `generate_personalized_plan`: the
7-day selection run on the three filtered pools, before
`_optimize_with_ai` rescales anything. -/
def pipelinePre (prefs : Preferences) (catalog : Catalog) (rng : ℕ → ℕ)
    (recent : List String) : LoopState :=
  runWeek rng recent
    (filterPool catalog.breakfast (prefs.diet_type.getD "vegetarian") prefs.allergies)
    (filterPool catalog.lunch (prefs.diet_type.getD "vegetarian") prefs.allergies)
    (filterPool catalog.dinner (prefs.diet_type.getD "vegetarian") prefs.allergies)

/-- Shorthand for a recipe that only carries a name. -/
def mkNamed (n : String) : Recipe :=
  ⟨n, [], none, none, none, none, none, none⟩

/-! ### Concrete inputs used by witnesses and counterexamples -/

/-- A 7-day plan of 700-calorie days (for the calorie-conservation witness). -/
def planW2 : WeeklyPlan :=
  ⟨[], List.replicate 7 ⟨0, 0, 0, 700, 0, 0⟩⟩

/-- A 7-day plan with positive totals and a well-formed heap (for the
non-negativity claim: its day totals go negative under a negative target). -/
def planC5 : WeeklyPlan :=
  ⟨[⟨"A", [], some 100, some 10, none, some 5, none, none⟩],
    List.replicate 7 ⟨0, 0, 0, 100, 0, 0⟩⟩

/-- A breakfast pool of seven recipes that all share one name. -/
def poolDup7 : List Recipe :=
  List.replicate 7 ⟨"X", [], some 100, none, none, none, none, some "vegetarian"⟩

/-- A breakfast pool of seven recipes with pairwise-distinct names. -/
def poolDistinct7 : List Recipe :=
  ["A", "B", "C", "D", "E", "F", "G"].map fun n =>
    ⟨n, [], some 100, none, none, none, none, some "vegetarian"⟩

/-- History for the variety-score counterexample: one entry of user `"u"`
containing meal `"X"`, then three entries of user `"v"` containing `"Q"`. -/
def historyC6 : List HistoryEntry :=
  [⟨"u", [⟨[mkNamed "X"]⟩]⟩, ⟨"v", [⟨[mkNamed "Q"]⟩]⟩,
    ⟨"v", [⟨[mkNamed "Q"]⟩]⟩, ⟨"v", [⟨[mkNamed "Q"]⟩]⟩]

/-- A day whose three meals repeat a name. -/
def mealsC6 : List Recipe :=
  [mkNamed "X", mkNamed "X", mkNamed "Y"]

/-- Meals with concrete macros for the nutrition-score witness. -/
def mealsC7 : List Recipe :=
  [⟨"A", [], some 100, some 10, some 20, some 5, none, none⟩,
    ⟨"B", [], some 200, some 15, some 30, some 10, none, none⟩,
    ⟨"C", [], some 150, some 12, some 25, some 8, none, none⟩]

/-- The single-recipe catalog demonstrating in-place catalog mutation. -/
def catalogC1 : Catalog :=
  ⟨[⟨"Oats", [("oats", 50)], some 100, some 10, some 10, some 10, some 10, some "vegetarian"⟩],
    [], []⟩

/-- Preferences matching `catalogC1`'s recipe. -/
def prefsC1 : Preferences :=
  ⟨some "vegetarian", some 2000, []⟩

/-! ### Generic helper lemmas -/

theorem getD_mod_mem {l : List ℕ} (h : l ≠ []) (m : ℕ) : l.getD (m % l.length) 0 ∈ l := by
  have hl : 0 < l.length := List.length_pos.mpr h
  have hm : m % l.length < l.length := Nat.mod_lt _ hl
  rw [List.getD_eq_getElem _ _ hm]
  exact List.getElem_mem hm

theorem abs_pytrunc_sub_le (q : ℚ) : |((pytrunc q : ℤ) : ℚ) - q| ≤ 1 := by
  rw [pytrunc]
  split_ifs with h
  · rw [abs_le]
    constructor
    · have h1 : q - 1 < ((⌊q⌋ : ℤ) : ℚ) := Int.sub_one_lt_floor q
      linarith
    · have h2 : ((⌊q⌋ : ℤ) : ℚ) ≤ q := Int.floor_le q
      linarith
  · rw [abs_le]
    constructor
    · have h1 : q ≤ ((⌈q⌉ : ℤ) : ℚ) := Int.le_ceil q
      linarith
    · have h2 : ((⌈q⌉ : ℤ) : ℚ) < q + 1 := Int.ceil_lt_add_one q
      linarith

theorem pytrunc_nonneg {q : ℚ} (h : 0 ≤ q) : 0 ≤ pytrunc q := by
  rw [pytrunc, if_pos h]
  exact Int.floor_nonneg.mpr h

theorem sum_pytrunc_close (f : ℚ) (l : List ℚ) :
    |(l.map fun x => ((pytrunc (x * f) : ℤ) : ℚ)).sum - f * l.sum| ≤ (l.length : ℚ) := by
  induction l with
  | nil => simp
  | cons a t ih =>
    simp only [List.map_cons, List.sum_cons, List.length_cons]
    have key : ((pytrunc (a * f) : ℤ) : ℚ) + (t.map fun x => ((pytrunc (x * f) : ℤ) : ℚ)).sum
        - f * (a + t.sum)
        = (((pytrunc (a * f) : ℤ) : ℚ) - a * f)
          + ((t.map fun x => ((pytrunc (x * f) : ℤ) : ℚ)).sum - f * t.sum) := by
      ring
    rw [key]
    have h1 := abs_pytrunc_sub_le (a * f)
    have h2 := abs_add (((pytrunc (a * f) : ℤ) : ℚ) - a * f)
      ((t.map fun x => ((pytrunc (x * f) : ℤ) : ℚ)).sum - f * t.sum)
    push_cast
    linarith

/-! ### Non-negativity lemmas for the normalizer -/

theorem scaleField_nonneg (f : ℚ) (o : Option ℚ) : OptNonneg (scaleField f o) := by
  intro x hx
  cases o with
  | none => exact absurd hx (by simp [scaleField])
  | some v =>
    have hx2 : x = ((max 0 (pytrunc (v * f)) : ℤ) : ℚ) := by
      simpa [scaleField] using hx.symm
    rw [hx2]
    exact Int.cast_nonneg.mpr (le_max_left 0 _)

theorem scaleRecipe_nonneg (f : ℚ) (r : Recipe) : RecipeNonneg (scaleRecipe f r) :=
  ⟨scaleField_nonneg f _, scaleField_nonneg f _, scaleField_nonneg f _, scaleField_nonneg f _⟩

theorem scaleAt_nonneg (f : ℚ) (heap : List Recipe) (i : ℕ)
    (h : ∀ r ∈ heap, RecipeNonneg r) : ∀ r ∈ scaleAt f heap i, RecipeNonneg r := by
  intro r hr
  simp only [scaleAt] at hr
  rcases List.mem_or_eq_of_mem_set hr with h1 | h2
  · exact h r h1
  · rw [h2]
    exact scaleRecipe_nonneg f _

theorem normalizeDayMeals_nonneg (f : ℚ) (heap : List Recipe) (day : DayPlan)
    (h : ∀ r ∈ heap, RecipeNonneg r) : ∀ r ∈ normalizeDayMeals f heap day, RecipeNonneg r := by
  simp only [normalizeDayMeals]
  exact scaleAt_nonneg f _ _ (scaleAt_nonneg f _ _ (scaleAt_nonneg f _ _ h))

theorem foldl_normalize_nonneg (f : ℚ) (days : List DayPlan) :
    ∀ heap : List Recipe, (∀ r ∈ heap, RecipeNonneg r) →
      ∀ r ∈ days.foldl (normalizeDayMeals f) heap, RecipeNonneg r := by
  induction days with
  | nil => intro heap h r hr; exact h r (by simpa using hr)
  | cons d t ih =>
    intro heap h
    rw [List.foldl_cons]
    exact ih _ (normalizeDayMeals_nonneg f heap d h)

theorem optimizeWithAi_of_pos {plan : WeeklyPlan} (T : ℚ)
    (hpos : 0 < (plan.days.map DayPlan.total_calories).sum) :
    optimizeWithAi plan T =
      ⟨plan.days.foldl
          (normalizeDayMeals (T * 7 / (plan.days.map DayPlan.total_calories).sum)) plan.heap,
        plan.days.map fun day =>
          { day with total_calories :=
              ((pytrunc (day.total_calories
                * (T * 7 / (plan.days.map DayPlan.total_calories).sum)) : ℤ) : ℚ) }⟩ := by
  simp only [optimizeWithAi]
  rw [if_pos hpos]

theorem optimizeWithAi_of_nonpos {plan : WeeklyPlan} (T : ℚ)
    (h : ¬ 0 < (plan.days.map DayPlan.total_calories).sum) :
    optimizeWithAi plan T = plan := by
  simp only [optimizeWithAi]
  rw [if_neg h]

/-! ### Characterization of the generation loop -/

theorem genStep_eq (rng : ℕ → ℕ) (recent : List String) (poolB poolL poolD : List ℕ)
    (s : LoopState) :
    genStep rng recent poolB poolL poolD s
      = ⟨(stepD rng poolB poolL poolD s).heap, (stepB rng poolB s).used,
          (stepL rng poolB poolL s).used, (stepD rng poolB poolL poolD s).used,
          (stepD rng poolB poolL poolD s).k,
          s.days ++ [dayOf rng recent poolB poolL poolD s]⟩ :=
  rfl

theorem genDays_succ (rng : ℕ → ℕ) (recent : List String) (poolB poolL poolD : List ℕ)
    (heap0 : List Recipe) (n : ℕ) :
    genDays rng recent poolB poolL poolD heap0 (n + 1)
      = genStep rng recent poolB poolL poolD (genDays rng recent poolB poolL poolD heap0 n) := by
  rw [genDays, genDays, List.range_succ, List.foldl_append]
  rfl

theorem genDays_zero (rng : ℕ → ℕ) (recent : List String) (poolB poolL poolD : List ℕ)
    (heap0 : List Recipe) :
    genDays rng recent poolB poolL poolD heap0 0 = ⟨heap0, [], [], [], 0, []⟩ :=
  rfl

theorem slotPick_empty (rng : ℕ → ℕ) (slotName : String) (heap : List Recipe)
    (used : List String) (k : ℕ) :
    slotPick rng slotName heap [] used k
      = ⟨heap ++ [createFallbackMeal slotName "vegetarian"], heap.length, used, k⟩ := by
  simp [slotPick]

theorem slotPick_of_ne (rng : ℕ → ℕ) (slotName : String) (heap : List Recipe)
    (pool : List ℕ) (used : List String) (k : ℕ) (hp : pool ≠ []) :
    ∃ choice, choice ∈ pool
      ∧ slotPick rng slotName heap pool used k
          = ⟨heap, choice, (heap.getD choice default).name :: used, k + 1⟩
      ∧ ((heap.getD choice default).name ∉ used
          ∨ ∀ i ∈ pool, (heap.getD i default).name ∈ used) := by
  simp only [slotPick]
  rw [if_neg hp]
  by_cases hc : (pool.filter fun i => !(used.contains (heap.getD i default).name)) = []
  · rw [if_pos hc]
    refine ⟨pool.getD (rng k % pool.length) 0, getD_mod_mem hp _, rfl, Or.inr ?_⟩
    intro i hi
    have := List.filter_eq_nil_iff.mp hc i hi
    simpa using this
  · rw [if_neg hc]
    have hmem := getD_mod_mem (l := pool.filter fun i => !(used.contains (heap.getD i default).name))
      hc (rng k)
    have h2 := List.mem_filter.mp hmem
    refine ⟨_, h2.1, rfl, Or.inl ?_⟩
    have := h2.2
    simpa using this

theorem slotPick_heap_ext (rng : ℕ → ℕ) (slotName : String) (heap : List Recipe)
    (pool : List ℕ) (used : List String) (k : ℕ) :
    ∃ e, (slotPick rng slotName heap pool used k).heap = heap ++ e := by
  by_cases hp : pool = []
  · subst hp
    rw [slotPick_empty]
    exact ⟨[createFallbackMeal slotName "vegetarian"], rfl⟩
  · rcases slotPick_of_ne rng slotName heap pool used k hp with ⟨c, _, heq, _⟩
    rw [heq]
    exact ⟨[], (List.append_nil heap).symm⟩

theorem slotPick_used_of_empty (rng : ℕ → ℕ) (slotName : String) (heap : List Recipe)
    (used : List String) (k : ℕ) :
    (slotPick rng slotName heap [] used k).used = used := by
  rw [slotPick_empty]

theorem slotPick_idx_lt (rng : ℕ → ℕ) (slotName : String) (heap : List Recipe)
    (pool : List ℕ) (used : List String) (k : ℕ)
    (hpool : ∀ i ∈ pool, i < heap.length) :
    (slotPick rng slotName heap pool used k).idx
      < (slotPick rng slotName heap pool used k).heap.length := by
  by_cases hp : pool = []
  · subst hp
    rw [slotPick_empty]
    simp
  · rcases slotPick_of_ne rng slotName heap pool used k hp with ⟨c, hcmem, heq, _⟩
    rw [heq]
    exact hpool c hcmem

theorem DayOk_append (heap e : List Recipe) (recent : List String) (day : DayPlan)
    (h : DayOk heap recent day) : DayOk (heap ++ e) recent day := by
  obtain ⟨h1, h2, h3, h4, h5, h6⟩ := h
  have m1 : (heap ++ e).getD day.breakfast default = heap.getD day.breakfast default :=
    List.getD_append _ _ _ _ h1
  have m2 : (heap ++ e).getD day.lunch default = heap.getD day.lunch default :=
    List.getD_append _ _ _ _ h2
  have m3 : (heap ++ e).getD day.dinner default = heap.getD day.dinner default :=
    List.getD_append _ _ _ _ h3
  have mm : mealsOfDay (heap ++ e) day = mealsOfDay heap day := by
    rw [mealsOfDay, mealsOfDay, m1, m2, m3]
  refine ⟨?_, ?_, ?_, ?_, ?_, ?_⟩
  · rw [List.length_append]; omega
  · rw [List.length_append]; omega
  · rw [List.length_append]; omega
  · rw [m1, m2, m3]; exact h4
  · rw [mm]; exact h5
  · rw [mm]; exact h6

theorem genStep_structure (rng : ℕ → ℕ) (recent : List String) (poolB poolL poolD : List ℕ)
    (heap0 : List Recipe) (s : LoopState)
    (hB : ∀ i ∈ poolB, i < heap0.length) (hL : ∀ i ∈ poolL, i < heap0.length)
    (hD : ∀ i ∈ poolD, i < heap0.length) (hs : ∃ ext, s.heap = heap0 ++ ext) :
    (∃ e, (genStep rng recent poolB poolL poolD s).heap = s.heap ++ e)
      ∧ DayOk (genStep rng recent poolB poolL poolD s).heap recent
          (dayOf rng recent poolB poolL poolD s) := by
  obtain ⟨ext, hext⟩ := hs
  obtain ⟨e1, he1⟩ : ∃ e, (stepB rng poolB s).heap = s.heap ++ e :=
    slotPick_heap_ext rng "breakfast" s.heap poolB s.usedB s.k
  obtain ⟨e2, he2⟩ : ∃ e, (stepL rng poolB poolL s).heap = (stepB rng poolB s).heap ++ e :=
    slotPick_heap_ext rng "lunch" _ poolL s.usedL _
  obtain ⟨e3, he3⟩ : ∃ e, (stepD rng poolB poolL poolD s).heap = (stepL rng poolB poolL s).heap ++ e :=
    slotPick_heap_ext rng "dinner" _ poolD s.usedD _
  have hheap : (genStep rng recent poolB poolL poolD s).heap
      = (stepD rng poolB poolL poolD s).heap := rfl
  have hsb : ∀ i ∈ poolB, i < s.heap.length := by
    intro i hi
    rw [hext, List.length_append]
    exact Nat.lt_of_lt_of_le (hB i hi) (Nat.le_add_right _ _)
  have hsl : ∀ i ∈ poolL, i < (stepB rng poolB s).heap.length := by
    intro i hi
    rw [he1, hext, List.length_append, List.length_append]
    have := hL i hi
    omega
  have hsd : ∀ i ∈ poolD, i < (stepL rng poolB poolL s).heap.length := by
    intro i hi
    rw [he2, he1, hext, List.length_append, List.length_append, List.length_append]
    have := hD i hi
    omega
  have h1 : (stepB rng poolB s).idx < (stepB rng poolB s).heap.length :=
    slotPick_idx_lt rng "breakfast" s.heap poolB s.usedB s.k hsb
  have h2 : (stepL rng poolB poolL s).idx < (stepL rng poolB poolL s).heap.length :=
    slotPick_idx_lt rng "lunch" _ poolL s.usedL _ hsl
  have h3 : (stepD rng poolB poolL poolD s).idx < (stepD rng poolB poolL poolD s).heap.length :=
    slotPick_idx_lt rng "dinner" _ poolD s.usedD _ hsd
  constructor
  · refine ⟨e1 ++ e2 ++ e3, ?_⟩
    rw [hheap, he3, he2, he1]
    simp [List.append_assoc]
  · have h1' : (stepB rng poolB s).idx < (stepD rng poolB poolL poolD s).heap.length := by
      rw [he3, he2, List.length_append, List.length_append]
      omega
    have h2' : (stepL rng poolB poolL s).idx < (stepD rng poolB poolL poolD s).heap.length := by
      rw [he3, List.length_append]
      omega
    exact ⟨h1', h2', h3, rfl, rfl, rfl⟩

theorem genDays_structure (rng : ℕ → ℕ) (recent : List String) (poolB poolL poolD : List ℕ)
    (heap0 : List Recipe)
    (hB : ∀ i ∈ poolB, i < heap0.length) (hL : ∀ i ∈ poolL, i < heap0.length)
    (hD : ∀ i ∈ poolD, i < heap0.length) (n : ℕ) :
    (∃ ext, (genDays rng recent poolB poolL poolD heap0 n).heap = heap0 ++ ext)
      ∧ (genDays rng recent poolB poolL poolD heap0 n).days.length = n
      ∧ ∀ day ∈ (genDays rng recent poolB poolL poolD heap0 n).days,
          DayOk (genDays rng recent poolB poolL poolD heap0 n).heap recent day := by
  induction n with
  | zero =>
    refine ⟨⟨[], (List.append_nil heap0).symm⟩, rfl, ?_⟩
    intro day h
    exact absurd h (List.not_mem_nil day)
  | succ n ih =>
    obtain ⟨⟨ext, hext⟩, hlen, hok⟩ := ih
    obtain ⟨⟨e, he⟩, hdayok⟩ :=
      genStep_structure rng recent poolB poolL poolD heap0 _ hB hL hD ⟨ext, hext⟩
    have hdays : (genStep rng recent poolB poolL poolD
          (genDays rng recent poolB poolL poolD heap0 n)).days
        = (genDays rng recent poolB poolL poolD heap0 n).days
          ++ [dayOf rng recent poolB poolL poolD
                (genDays rng recent poolB poolL poolD heap0 n)] := rfl
    rw [genDays_succ]
    refine ⟨⟨ext ++ e, by rw [he, hext]; simp [List.append_assoc]⟩, ?_, ?_⟩
    · rw [hdays, List.length_append, hlen]
      rfl
    · intro day hday
      rw [hdays] at hday
      rcases List.mem_append.mp hday with h | h
      · rw [he]
        exact DayOk_append _ _ _ _ (hok day h)
      · have hd : day = dayOf rng recent poolB poolL poolD
            (genDays rng recent poolB poolL poolD heap0 n) := by simpa using h
        rw [hd]
        exact hdayok

theorem pick_char (rng : ℕ → ℕ) (slotName : String) (heap : List Recipe) (pool : List ℕ)
    (used : List String) (k : ℕ) (heap0 : List Recipe)
    (hpool : ∀ i ∈ pool, i < heap0.length) (hpre : ∃ ext, heap = heap0 ++ ext)
    (hne : pool ≠ []) :
    ∃ c, c ∈ pool
      ∧ (slotPick rng slotName heap pool used k).idx = c
      ∧ (slotPick rng slotName heap pool used k).used = nameAt heap0 c :: used
      ∧ (nameAt heap0 c ∉ used ∨ ∀ i ∈ pool, nameAt heap0 i ∈ used) := by
  obtain ⟨ext, hext⟩ := hpre
  rcases slotPick_of_ne rng slotName heap pool used k hne with ⟨c, hc, heq, hdich⟩
  have hname : ∀ i ∈ pool, (heap.getD i default).name = nameAt heap0 i := by
    intro i hi
    rw [hext, nameAt, List.getD_append _ _ _ _ (hpool i hi)]
  refine ⟨c, hc, by rw [heq], by rw [heq, hname c hc], ?_⟩
  rcases hdich with h | h
  · left
    rwa [hname c hc] at h
  · right
    intro i hi
    rw [← hname i hi]
    exact h i hi

theorem RepP_extend (pool : List ℕ) (heap0 : List Recipe) (names : List String) (c : ℕ)
    (hrep : RepP pool heap0 names)
    (hnew : nameAt heap0 c ∉ names ∨ ∀ i ∈ pool, nameAt heap0 i ∈ names) :
    RepP pool heap0 (names ++ [nameAt heap0 c]) := by
  intro j hj hget i hi
  by_cases hjl : j < names.length
  · rw [List.take_append_of_le_length (le_of_lt hjl)] at hget ⊢
    rw [List.getD_append _ _ _ _ hjl] at hget
    exact hrep j hjl hget i hi
  · have hj' : j = names.length := by
      rw [List.length_append] at hj
      simp at hj
      omega
    subst hj'
    rw [List.take_left] at hget ⊢
    rw [List.getD_append_right _ _ _ _ (le_refl _)] at hget
    simp at hget
    rcases hnew with h | h
    · exact absurd hget h
    · exact h i hi

theorem genDays_slotB (rng : ℕ → ℕ) (recent : List String) (poolB poolL poolD : List ℕ)
    (heap0 : List Recipe)
    (hB : ∀ i ∈ poolB, i < heap0.length) (hL : ∀ i ∈ poolL, i < heap0.length)
    (hD : ∀ i ∈ poolD, i < heap0.length) (hne : poolB ≠ []) (n : ℕ) :
    (∀ day ∈ (genDays rng recent poolB poolL poolD heap0 n).days, day.breakfast ∈ poolB)
      ∧ (∀ x, x ∈ (genDays rng recent poolB poolL poolD heap0 n).usedB
          ↔ x ∈ slotNamesAt heap0 (genDays rng recent poolB poolL poolD heap0 n)
                DayPlan.breakfast)
      ∧ RepP poolB heap0
          (slotNamesAt heap0 (genDays rng recent poolB poolL poolD heap0 n) DayPlan.breakfast)
      ∧ (n ≤ (poolB.map (nameAt heap0)).dedup.length →
          (slotNamesAt heap0 (genDays rng recent poolB poolL poolD heap0 n)
            DayPlan.breakfast).Nodup) := by
  induction n with
  | zero =>
    refine ⟨?_, ?_, ?_, ?_⟩
    · intro day h
      exact absurd h (List.not_mem_nil day)
    · intro x
      exact Iff.rfl
    · intro j hj
      exact absurd hj (by simp [slotNamesAt, genDays_zero])
    · intro _
      exact List.nodup_nil
  | succ n ih =>
    obtain ⟨hmem, hused, hrep, hnd⟩ := ih
    obtain ⟨⟨ext, hext⟩, hlen, -⟩ :=
      genDays_structure rng recent poolB poolL poolD heap0 hB hL hD n
    rcases pick_char rng "breakfast" (genDays rng recent poolB poolL poolD heap0 n).heap poolB
        (genDays rng recent poolB poolL poolD heap0 n).usedB
        (genDays rng recent poolB poolL poolD heap0 n).k heap0 hB ⟨ext, hext⟩ hne with
      ⟨c, hcPool, hcIdx, hcUsed, hcDich⟩
    have hdays' : (genDays rng recent poolB poolL poolD heap0 (n + 1)).days
        = (genDays rng recent poolB poolL poolD heap0 n).days
          ++ [dayOf rng recent poolB poolL poolD
                (genDays rng recent poolB poolL poolD heap0 n)] := by
      rw [genDays_succ]
      rfl
    have husedB' : (genDays rng recent poolB poolL poolD heap0 (n + 1)).usedB
        = nameAt heap0 c :: (genDays rng recent poolB poolL poolD heap0 n).usedB := by
      rw [genDays_succ]
      exact hcUsed
    have hdayB : (dayOf rng recent poolB poolL poolD
        (genDays rng recent poolB poolL poolD heap0 n)).breakfast = c := hcIdx
    have hnames' : slotNamesAt heap0 (genDays rng recent poolB poolL poolD heap0 (n + 1))
          DayPlan.breakfast
        = slotNamesAt heap0 (genDays rng recent poolB poolL poolD heap0 n) DayPlan.breakfast
          ++ [nameAt heap0 c] := by
      rw [slotNamesAt, slotNamesAt, hdays', List.map_append]
      simp [hdayB]
    refine ⟨?_, ?_, ?_, ?_⟩
    · intro day hday
      rw [hdays'] at hday
      rcases List.mem_append.mp hday with h | h
      · exact hmem day h
      · have hd : day = dayOf rng recent poolB poolL poolD
            (genDays rng recent poolB poolL poolD heap0 n) := by simpa using h
        rw [hd, hdayB]
        exact hcPool
    · intro x
      rw [husedB', hnames']
      simp only [List.mem_cons, List.mem_append, List.mem_singleton]
      rw [hused x]
      tauto
    · rw [hnames']
      apply RepP_extend poolB heap0 _ c hrep
      rcases hcDich with h | h
      · left
        intro hx
        exact h ((hused _).mpr hx)
      · right
        intro i hi
        exact (hused _).mp (h i hi)
    · intro hn1
      rw [hnames']
      have hnd' := hnd (by omega)
      have hnotin : nameAt heap0 c
          ∉ slotNamesAt heap0 (genDays rng recent poolB poolL poolD heap0 n)
              DayPlan.breakfast := by
        rcases hcDich with h | h
        · intro hx
          exact h ((hused _).mpr hx)
        · exfalso
          have hsub : (poolB.map (nameAt heap0)).dedup
              ⊆ slotNamesAt heap0 (genDays rng recent poolB poolL poolD heap0 n)
                  DayPlan.breakfast := by
            intro x hx
            rw [List.mem_dedup] at hx
            rcases List.mem_map.mp hx with ⟨i, hi, rfl⟩
            exact (hused _).mp (h i hi)
          have hle := (List.subperm_of_subset (List.nodup_dedup _) hsub).length_le
          have hlen_names : (slotNamesAt heap0 (genDays rng recent poolB poolL poolD heap0 n)
              DayPlan.breakfast).length = n := by
            rw [slotNamesAt, List.length_map, hlen]
          omega
      apply List.nodup_append.mpr
      refine ⟨hnd', by simp, ?_⟩
      intro a ha hb
      rw [List.mem_singleton] at hb
      rw [hb] at ha
      exact hnotin ha

theorem genDays_slotL (rng : ℕ → ℕ) (recent : List String) (poolB poolL poolD : List ℕ)
    (heap0 : List Recipe)
    (hB : ∀ i ∈ poolB, i < heap0.length) (hL : ∀ i ∈ poolL, i < heap0.length)
    (hD : ∀ i ∈ poolD, i < heap0.length) (hne : poolL ≠ []) (n : ℕ) :
    (∀ day ∈ (genDays rng recent poolB poolL poolD heap0 n).days, day.lunch ∈ poolL)
      ∧ (∀ x, x ∈ (genDays rng recent poolB poolL poolD heap0 n).usedL
          ↔ x ∈ slotNamesAt heap0 (genDays rng recent poolB poolL poolD heap0 n)
                DayPlan.lunch)
      ∧ RepP poolL heap0
          (slotNamesAt heap0 (genDays rng recent poolB poolL poolD heap0 n) DayPlan.lunch)
      ∧ (n ≤ (poolL.map (nameAt heap0)).dedup.length →
          (slotNamesAt heap0 (genDays rng recent poolB poolL poolD heap0 n)
            DayPlan.lunch).Nodup) := by
  induction n with
  | zero =>
    refine ⟨?_, ?_, ?_, ?_⟩
    · intro day h
      exact absurd h (List.not_mem_nil day)
    · intro x
      exact Iff.rfl
    · intro j hj
      exact absurd hj (by simp [slotNamesAt, genDays_zero])
    · intro _
      exact List.nodup_nil
  | succ n ih =>
    obtain ⟨hmem, hused, hrep, hnd⟩ := ih
    obtain ⟨⟨ext, hext⟩, hlen, -⟩ :=
      genDays_structure rng recent poolB poolL poolD heap0 hB hL hD n
    obtain ⟨e1, he1⟩ : ∃ e, (stepB rng poolB (genDays rng recent poolB poolL poolD heap0 n)).heap
        = (genDays rng recent poolB poolL poolD heap0 n).heap ++ e :=
      slotPick_heap_ext rng "breakfast" _ poolB _ _
    rcases pick_char rng "lunch"
        (stepB rng poolB (genDays rng recent poolB poolL poolD heap0 n)).heap poolL
        (genDays rng recent poolB poolL poolD heap0 n).usedL
        (stepB rng poolB (genDays rng recent poolB poolL poolD heap0 n)).k heap0 hL
        ⟨ext ++ e1, by rw [he1, hext, List.append_assoc]⟩ hne with
      ⟨c, hcPool, hcIdx, hcUsed, hcDich⟩
    have hdays' : (genDays rng recent poolB poolL poolD heap0 (n + 1)).days
        = (genDays rng recent poolB poolL poolD heap0 n).days
          ++ [dayOf rng recent poolB poolL poolD
                (genDays rng recent poolB poolL poolD heap0 n)] := by
      rw [genDays_succ]
      rfl
    have husedL' : (genDays rng recent poolB poolL poolD heap0 (n + 1)).usedL
        = nameAt heap0 c :: (genDays rng recent poolB poolL poolD heap0 n).usedL := by
      rw [genDays_succ]
      exact hcUsed
    have hdayL : (dayOf rng recent poolB poolL poolD
        (genDays rng recent poolB poolL poolD heap0 n)).lunch = c := hcIdx
    have hnames' : slotNamesAt heap0 (genDays rng recent poolB poolL poolD heap0 (n + 1))
          DayPlan.lunch
        = slotNamesAt heap0 (genDays rng recent poolB poolL poolD heap0 n) DayPlan.lunch
          ++ [nameAt heap0 c] := by
      rw [slotNamesAt, slotNamesAt, hdays', List.map_append]
      simp [hdayL]
    refine ⟨?_, ?_, ?_, ?_⟩
    · intro day hday
      rw [hdays'] at hday
      rcases List.mem_append.mp hday with h | h
      · exact hmem day h
      · have hd : day = dayOf rng recent poolB poolL poolD
            (genDays rng recent poolB poolL poolD heap0 n) := by simpa using h
        rw [hd, hdayL]
        exact hcPool
    · intro x
      rw [husedL', hnames']
      simp only [List.mem_cons, List.mem_append, List.mem_singleton]
      rw [hused x]
      tauto
    · rw [hnames']
      apply RepP_extend poolL heap0 _ c hrep
      rcases hcDich with h | h
      · left
        intro hx
        exact h ((hused _).mpr hx)
      · right
        intro i hi
        exact (hused _).mp (h i hi)
    · intro hn1
      rw [hnames']
      have hnd' := hnd (by omega)
      have hnotin : nameAt heap0 c
          ∉ slotNamesAt heap0 (genDays rng recent poolB poolL poolD heap0 n)
              DayPlan.lunch := by
        rcases hcDich with h | h
        · intro hx
          exact h ((hused _).mpr hx)
        · exfalso
          have hsub : (poolL.map (nameAt heap0)).dedup
              ⊆ slotNamesAt heap0 (genDays rng recent poolB poolL poolD heap0 n)
                  DayPlan.lunch := by
            intro x hx
            rw [List.mem_dedup] at hx
            rcases List.mem_map.mp hx with ⟨i, hi, rfl⟩
            exact (hused _).mp (h i hi)
          have hle := (List.subperm_of_subset (List.nodup_dedup _) hsub).length_le
          have hlen_names : (slotNamesAt heap0 (genDays rng recent poolB poolL poolD heap0 n)
              DayPlan.lunch).length = n := by
            rw [slotNamesAt, List.length_map, hlen]
          omega
      apply List.nodup_append.mpr
      refine ⟨hnd', by simp, ?_⟩
      intro a ha hb
      rw [List.mem_singleton] at hb
      rw [hb] at ha
      exact hnotin ha

theorem genDays_slotD (rng : ℕ → ℕ) (recent : List String) (poolB poolL poolD : List ℕ)
    (heap0 : List Recipe)
    (hB : ∀ i ∈ poolB, i < heap0.length) (hL : ∀ i ∈ poolL, i < heap0.length)
    (hD : ∀ i ∈ poolD, i < heap0.length) (hne : poolD ≠ []) (n : ℕ) :
    (∀ day ∈ (genDays rng recent poolB poolL poolD heap0 n).days, day.dinner ∈ poolD)
      ∧ (∀ x, x ∈ (genDays rng recent poolB poolL poolD heap0 n).usedD
          ↔ x ∈ slotNamesAt heap0 (genDays rng recent poolB poolL poolD heap0 n)
                DayPlan.dinner)
      ∧ RepP poolD heap0
          (slotNamesAt heap0 (genDays rng recent poolB poolL poolD heap0 n) DayPlan.dinner)
      ∧ (n ≤ (poolD.map (nameAt heap0)).dedup.length →
          (slotNamesAt heap0 (genDays rng recent poolB poolL poolD heap0 n)
            DayPlan.dinner).Nodup) := by
  induction n with
  | zero =>
    refine ⟨?_, ?_, ?_, ?_⟩
    · intro day h
      exact absurd h (List.not_mem_nil day)
    · intro x
      exact Iff.rfl
    · intro j hj
      exact absurd hj (by simp [slotNamesAt, genDays_zero])
    · intro _
      exact List.nodup_nil
  | succ n ih =>
    obtain ⟨hmem, hused, hrep, hnd⟩ := ih
    obtain ⟨⟨ext, hext⟩, hlen, -⟩ :=
      genDays_structure rng recent poolB poolL poolD heap0 hB hL hD n
    obtain ⟨e1, he1⟩ : ∃ e, (stepB rng poolB (genDays rng recent poolB poolL poolD heap0 n)).heap
        = (genDays rng recent poolB poolL poolD heap0 n).heap ++ e :=
      slotPick_heap_ext rng "breakfast" _ poolB _ _
    obtain ⟨e2, he2⟩ : ∃ e,
        (stepL rng poolB poolL (genDays rng recent poolB poolL poolD heap0 n)).heap
        = (stepB rng poolB (genDays rng recent poolB poolL poolD heap0 n)).heap ++ e :=
      slotPick_heap_ext rng "lunch" _ poolL _ _
    rcases pick_char rng "dinner"
        (stepL rng poolB poolL (genDays rng recent poolB poolL poolD heap0 n)).heap poolD
        (genDays rng recent poolB poolL poolD heap0 n).usedD
        (stepL rng poolB poolL (genDays rng recent poolB poolL poolD heap0 n)).k heap0 hD
        ⟨ext ++ e1 ++ e2, by
          rw [he2, he1, hext]
          simp [List.append_assoc]⟩ hne with
      ⟨c, hcPool, hcIdx, hcUsed, hcDich⟩
    have hdays' : (genDays rng recent poolB poolL poolD heap0 (n + 1)).days
        = (genDays rng recent poolB poolL poolD heap0 n).days
          ++ [dayOf rng recent poolB poolL poolD
                (genDays rng recent poolB poolL poolD heap0 n)] := by
      rw [genDays_succ]
      rfl
    have husedD' : (genDays rng recent poolB poolL poolD heap0 (n + 1)).usedD
        = nameAt heap0 c :: (genDays rng recent poolB poolL poolD heap0 n).usedD := by
      rw [genDays_succ]
      exact hcUsed
    have hdayD : (dayOf rng recent poolB poolL poolD
        (genDays rng recent poolB poolL poolD heap0 n)).dinner = c := hcIdx
    have hnames' : slotNamesAt heap0 (genDays rng recent poolB poolL poolD heap0 (n + 1))
          DayPlan.dinner
        = slotNamesAt heap0 (genDays rng recent poolB poolL poolD heap0 n) DayPlan.dinner
          ++ [nameAt heap0 c] := by
      rw [slotNamesAt, slotNamesAt, hdays', List.map_append]
      simp [hdayD]
    refine ⟨?_, ?_, ?_, ?_⟩
    · intro day hday
      rw [hdays'] at hday
      rcases List.mem_append.mp hday with h | h
      · exact hmem day h
      · have hd : day = dayOf rng recent poolB poolL poolD
            (genDays rng recent poolB poolL poolD heap0 n) := by simpa using h
        rw [hd, hdayD]
        exact hcPool
    · intro x
      rw [husedD', hnames']
      simp only [List.mem_cons, List.mem_append, List.mem_singleton]
      rw [hused x]
      tauto
    · rw [hnames']
      apply RepP_extend poolD heap0 _ c hrep
      rcases hcDich with h | h
      · left
        intro hx
        exact h ((hused _).mpr hx)
      · right
        intro i hi
        exact (hused _).mp (h i hi)
    · intro hn1
      rw [hnames']
      have hnd' := hnd (by omega)
      have hnotin : nameAt heap0 c
          ∉ slotNamesAt heap0 (genDays rng recent poolB poolL poolD heap0 n)
              DayPlan.dinner := by
        rcases hcDich with h | h
        · intro hx
          exact h ((hused _).mpr hx)
        · exfalso
          have hsub : (poolD.map (nameAt heap0)).dedup
              ⊆ slotNamesAt heap0 (genDays rng recent poolB poolL poolD heap0 n)
                  DayPlan.dinner := by
            intro x hx
            rw [List.mem_dedup] at hx
            rcases List.mem_map.mp hx with ⟨i, hi, rfl⟩
            exact (hused _).mp (h i hi)
          have hle := (List.subperm_of_subset (List.nodup_dedup _) hsub).length_le
          have hlen_names : (slotNamesAt heap0 (genDays rng recent poolB poolL poolD heap0 n)
              DayPlan.dinner).length = n := by
            rw [slotNamesAt, List.length_map, hlen]
          omega
      apply List.nodup_append.mpr
      refine ⟨hnd', by simp, ?_⟩
      intro a ha hb
      rw [List.mem_singleton] at hb
      rw [hb] at ha
      exact hnotin ha

theorem genDays_emptyB (rng : ℕ → ℕ) (recent : List String) (poolL poolD : List ℕ)
    (heap0 : List Recipe)
    (hL : ∀ i ∈ poolL, i < heap0.length) (hD : ∀ i ∈ poolD, i < heap0.length) (n : ℕ) :
    (genDays rng recent [] poolL poolD heap0 n).usedB = []
      ∧ ∀ day ∈ (genDays rng recent [] poolL poolD heap0 n).days,
          (genDays rng recent [] poolL poolD heap0 n).heap.getD day.breakfast default
            = createFallbackMeal "breakfast" "vegetarian" := by
  have hB : ∀ i ∈ ([] : List ℕ), i < heap0.length := by intro i hi; cases hi
  induction n with
  | zero =>
    exact ⟨rfl, fun day h => absurd h (List.not_mem_nil day)⟩
  | succ n ih =>
    obtain ⟨hused, hfb⟩ := ih
    obtain ⟨-, -, hok⟩ := genDays_structure rng recent [] poolL poolD heap0 hB hL hD n
    have hstepB : stepB rng [] (genDays rng recent [] poolL poolD heap0 n)
        = ⟨(genDays rng recent [] poolL poolD heap0 n).heap
            ++ [createFallbackMeal "breakfast" "vegetarian"],
          (genDays rng recent [] poolL poolD heap0 n).heap.length,
          (genDays rng recent [] poolL poolD heap0 n).usedB,
          (genDays rng recent [] poolL poolD heap0 n).k⟩ :=
      slotPick_empty rng "breakfast" _ _ _
    obtain ⟨e2, he2⟩ : ∃ e, (stepL rng [] poolL (genDays rng recent [] poolL poolD heap0 n)).heap
        = (stepB rng [] (genDays rng recent [] poolL poolD heap0 n)).heap ++ e :=
      slotPick_heap_ext rng "lunch" _ poolL _ _
    obtain ⟨e3, he3⟩ : ∃ e,
        (stepD rng [] poolL poolD (genDays rng recent [] poolL poolD heap0 n)).heap
        = (stepL rng [] poolL (genDays rng recent [] poolL poolD heap0 n)).heap ++ e :=
      slotPick_heap_ext rng "dinner" _ poolD _ _
    have hheap' : (genDays rng recent [] poolL poolD heap0 (n + 1)).heap
        = (stepD rng [] poolL poolD (genDays rng recent [] poolL poolD heap0 n)).heap := by
      rw [genDays_succ]
      rfl
    have hdays' : (genDays rng recent [] poolL poolD heap0 (n + 1)).days
        = (genDays rng recent [] poolL poolD heap0 n).days
          ++ [dayOf rng recent [] poolL poolD (genDays rng recent [] poolL poolD heap0 n)] := by
      rw [genDays_succ]
      rfl
    have hxheap : (genDays rng recent [] poolL poolD heap0 (n + 1)).heap
        = (genDays rng recent [] poolL poolD heap0 n).heap
          ++ ([createFallbackMeal "breakfast" "vegetarian"] ++ e2 ++ e3) := by
      rw [hheap', he3, he2]
      simp only [hstepB]
      simp [List.append_assoc]
    constructor
    · have : (genDays rng recent [] poolL poolD heap0 (n + 1)).usedB
          = (stepB rng [] (genDays rng recent [] poolL poolD heap0 n)).used := by
        rw [genDays_succ]
        rfl
      rw [this]
      simp only [hstepB]
      exact hused
    · intro day hday
      rw [hdays'] at hday
      rcases List.mem_append.mp hday with h | h
      · have hbd := (hok day h).1
        rw [hxheap, List.getD_append _ _ _ _ hbd]
        exact hfb day h
      · have hd : day = dayOf rng recent [] poolL poolD
            (genDays rng recent [] poolL poolD heap0 n) := by simpa using h
        have hidx : day.breakfast
            = (genDays rng recent [] poolL poolD heap0 n).heap.length := by
          rw [hd]
          show (stepB rng [] (genDays rng recent [] poolL poolD heap0 n)).idx = _
          rw [hstepB]
        rw [hxheap, hidx]
        rw [show (genDays rng recent [] poolL poolD heap0 n).heap
              ++ ([createFallbackMeal "breakfast" "vegetarian"] ++ e2 ++ e3)
            = ((genDays rng recent [] poolL poolD heap0 n).heap
                ++ [createFallbackMeal "breakfast" "vegetarian"]) ++ (e2 ++ e3) by
          simp [List.append_assoc]]
        rw [List.getD_append _ _ _ _ (by rw [List.length_append]; simp)]
        rw [List.getD_append_right _ _ _ _ (le_refl _)]
        simp

theorem genDays_emptyL (rng : ℕ → ℕ) (recent : List String) (poolB poolD : List ℕ)
    (heap0 : List Recipe)
    (hB : ∀ i ∈ poolB, i < heap0.length) (hD : ∀ i ∈ poolD, i < heap0.length) (n : ℕ) :
    (genDays rng recent poolB [] poolD heap0 n).usedL = []
      ∧ ∀ day ∈ (genDays rng recent poolB [] poolD heap0 n).days,
          (genDays rng recent poolB [] poolD heap0 n).heap.getD day.lunch default
            = createFallbackMeal "lunch" "vegetarian" := by
  have hL : ∀ i ∈ ([] : List ℕ), i < heap0.length := by intro i hi; cases hi
  induction n with
  | zero =>
    exact ⟨rfl, fun day h => absurd h (List.not_mem_nil day)⟩
  | succ n ih =>
    obtain ⟨hused, hfb⟩ := ih
    obtain ⟨-, -, hok⟩ := genDays_structure rng recent poolB [] poolD heap0 hB hL hD n
    obtain ⟨e1, he1⟩ : ∃ e, (stepB rng poolB (genDays rng recent poolB [] poolD heap0 n)).heap
        = (genDays rng recent poolB [] poolD heap0 n).heap ++ e :=
      slotPick_heap_ext rng "breakfast" _ poolB _ _
    have hstepL : stepL rng poolB [] (genDays rng recent poolB [] poolD heap0 n)
        = ⟨(stepB rng poolB (genDays rng recent poolB [] poolD heap0 n)).heap
            ++ [createFallbackMeal "lunch" "vegetarian"],
          (stepB rng poolB (genDays rng recent poolB [] poolD heap0 n)).heap.length,
          (genDays rng recent poolB [] poolD heap0 n).usedL,
          (stepB rng poolB (genDays rng recent poolB [] poolD heap0 n)).k⟩ :=
      slotPick_empty rng "lunch" _ _ _
    obtain ⟨e3, he3⟩ : ∃ e,
        (stepD rng poolB [] poolD (genDays rng recent poolB [] poolD heap0 n)).heap
        = (stepL rng poolB [] (genDays rng recent poolB [] poolD heap0 n)).heap ++ e :=
      slotPick_heap_ext rng "dinner" _ poolD _ _
    have hheap' : (genDays rng recent poolB [] poolD heap0 (n + 1)).heap
        = (stepD rng poolB [] poolD (genDays rng recent poolB [] poolD heap0 n)).heap := by
      rw [genDays_succ]
      rfl
    have hdays' : (genDays rng recent poolB [] poolD heap0 (n + 1)).days
        = (genDays rng recent poolB [] poolD heap0 n).days
          ++ [dayOf rng recent poolB [] poolD (genDays rng recent poolB [] poolD heap0 n)] := by
      rw [genDays_succ]
      rfl
    have hxheap : (genDays rng recent poolB [] poolD heap0 (n + 1)).heap
        = (genDays rng recent poolB [] poolD heap0 n).heap
          ++ (e1 ++ [createFallbackMeal "lunch" "vegetarian"] ++ e3) := by
      rw [hheap', he3]
      simp only [hstepL]
      rw [he1]
      simp [List.append_assoc]
    constructor
    · have : (genDays rng recent poolB [] poolD heap0 (n + 1)).usedL
          = (stepL rng poolB [] (genDays rng recent poolB [] poolD heap0 n)).used := by
        rw [genDays_succ]
        rfl
      rw [this]
      simp only [hstepL]
      exact hused
    · intro day hday
      rw [hdays'] at hday
      rcases List.mem_append.mp hday with h | h
      · have hbd := (hok day h).2.1
        rw [hxheap, List.getD_append _ _ _ _ hbd]
        exact hfb day h
      · have hd : day = dayOf rng recent poolB [] poolD
            (genDays rng recent poolB [] poolD heap0 n) := by simpa using h
        have hidx : day.lunch
            = (stepB rng poolB (genDays rng recent poolB [] poolD heap0 n)).heap.length := by
          rw [hd]
          show (stepL rng poolB [] (genDays rng recent poolB [] poolD heap0 n)).idx = _
          rw [hstepL]
        have hform : (genDays rng recent poolB [] poolD heap0 (n + 1)).heap
            = ((stepB rng poolB (genDays rng recent poolB [] poolD heap0 n)).heap
                ++ [createFallbackMeal "lunch" "vegetarian"]) ++ e3 := by
          rw [hheap', he3]
          simp only [hstepL]
        rw [hform, hidx]
        rw [List.getD_append _ _ _ _ (by rw [List.length_append]; simp)]
        rw [List.getD_append_right _ _ _ _ (le_refl _)]
        simp

theorem genDays_emptyD (rng : ℕ → ℕ) (recent : List String) (poolB poolL : List ℕ)
    (heap0 : List Recipe)
    (hB : ∀ i ∈ poolB, i < heap0.length) (hL : ∀ i ∈ poolL, i < heap0.length) (n : ℕ) :
    (genDays rng recent poolB poolL [] heap0 n).usedD = []
      ∧ ∀ day ∈ (genDays rng recent poolB poolL [] heap0 n).days,
          (genDays rng recent poolB poolL [] heap0 n).heap.getD day.dinner default
            = createFallbackMeal "dinner" "vegetarian" := by
  have hD : ∀ i ∈ ([] : List ℕ), i < heap0.length := by intro i hi; cases hi
  induction n with
  | zero =>
    exact ⟨rfl, fun day h => absurd h (List.not_mem_nil day)⟩
  | succ n ih =>
    obtain ⟨hused, hfb⟩ := ih
    obtain ⟨-, -, hok⟩ := genDays_structure rng recent poolB poolL [] heap0 hB hL hD n
    obtain ⟨e1, he1⟩ : ∃ e, (stepB rng poolB (genDays rng recent poolB poolL [] heap0 n)).heap
        = (genDays rng recent poolB poolL [] heap0 n).heap ++ e :=
      slotPick_heap_ext rng "breakfast" _ poolB _ _
    obtain ⟨e2, he2⟩ : ∃ e,
        (stepL rng poolB poolL (genDays rng recent poolB poolL [] heap0 n)).heap
        = (stepB rng poolB (genDays rng recent poolB poolL [] heap0 n)).heap ++ e :=
      slotPick_heap_ext rng "lunch" _ poolL _ _
    have hstepD : stepD rng poolB poolL [] (genDays rng recent poolB poolL [] heap0 n)
        = ⟨(stepL rng poolB poolL (genDays rng recent poolB poolL [] heap0 n)).heap
            ++ [createFallbackMeal "dinner" "vegetarian"],
          (stepL rng poolB poolL (genDays rng recent poolB poolL [] heap0 n)).heap.length,
          (genDays rng recent poolB poolL [] heap0 n).usedD,
          (stepL rng poolB poolL (genDays rng recent poolB poolL [] heap0 n)).k⟩ :=
      slotPick_empty rng "dinner" _ _ _
    have hheap' : (genDays rng recent poolB poolL [] heap0 (n + 1)).heap
        = (stepD rng poolB poolL [] (genDays rng recent poolB poolL [] heap0 n)).heap := by
      rw [genDays_succ]
      rfl
    have hdays' : (genDays rng recent poolB poolL [] heap0 (n + 1)).days
        = (genDays rng recent poolB poolL [] heap0 n).days
          ++ [dayOf rng recent poolB poolL [] (genDays rng recent poolB poolL [] heap0 n)] := by
      rw [genDays_succ]
      rfl
    have hxheap : (genDays rng recent poolB poolL [] heap0 (n + 1)).heap
        = (genDays rng recent poolB poolL [] heap0 n).heap
          ++ (e1 ++ e2 ++ [createFallbackMeal "dinner" "vegetarian"]) := by
      rw [hheap']
      simp only [hstepD]
      rw [he2, he1]
      simp [List.append_assoc]
    constructor
    · have : (genDays rng recent poolB poolL [] heap0 (n + 1)).usedD
          = (stepD rng poolB poolL [] (genDays rng recent poolB poolL [] heap0 n)).used := by
        rw [genDays_succ]
        rfl
      rw [this]
      simp only [hstepD]
      exact hused
    · intro day hday
      rw [hdays'] at hday
      rcases List.mem_append.mp hday with h | h
      · have hbd := (hok day h).2.2.1
        rw [hxheap, List.getD_append _ _ _ _ hbd]
        exact hfb day h
      · have hd : day = dayOf rng recent poolB poolL []
            (genDays rng recent poolB poolL [] heap0 n) := by simpa using h
        have hidx : day.dinner
            = (stepL rng poolB poolL (genDays rng recent poolB poolL [] heap0 n)).heap.length := by
          rw [hd]
          show (stepD rng poolB poolL [] (genDays rng recent poolB poolL [] heap0 n)).idx = _
          rw [hstepD]
        have hform : (genDays rng recent poolB poolL [] heap0 (n + 1)).heap
            = (stepL rng poolB poolL (genDays rng recent poolB poolL [] heap0 n)).heap
              ++ [createFallbackMeal "dinner" "vegetarian"] := by
          rw [hheap']
          simp only [hstepD]
        rw [hform, hidx]
        rw [List.getD_append_right _ _ _ _ (le_refl _)]
        simp

/-! ### Bridging lemmas for the concrete pool layout of `runWeek` -/

theorem runWeek_boundsB (fb fl fd : List Recipe) :
    ∀ i ∈ List.range fb.length, i < (fb ++ fl ++ fd).length := by
  intro i hi
  rw [List.mem_range] at hi
  rw [List.length_append, List.length_append]
  omega

theorem runWeek_boundsL (fb fl fd : List Recipe) :
    ∀ i ∈ (List.range fl.length).map fun i => i + fb.length,
      i < (fb ++ fl ++ fd).length := by
  intro i hi
  rcases List.mem_map.mp hi with ⟨j, hj, rfl⟩
  rw [List.mem_range] at hj
  rw [List.length_append, List.length_append]
  omega

theorem runWeek_boundsD (fb fl fd : List Recipe) :
    ∀ i ∈ (List.range fd.length).map fun i => i + (fb.length + fl.length),
      i < (fb ++ fl ++ fd).length := by
  intro i hi
  rcases List.mem_map.mp hi with ⟨j, hj, rfl⟩
  rw [List.mem_range] at hj
  rw [List.length_append, List.length_append]
  omega

theorem nameAt_tripleB (fb fl fd : List Recipe) (i : ℕ) (h : i < fb.length) :
    nameAt (fb ++ fl ++ fd) i = (fb.getD i default).name := by
  rw [nameAt, List.getD_append _ _ _ _ (by rw [List.length_append]; omega),
    List.getD_append _ _ _ _ h]

theorem nameAt_tripleL (fb fl fd : List Recipe) (j : ℕ) (h : j < fl.length) :
    nameAt (fb ++ fl ++ fd) (j + fb.length) = (fl.getD j default).name := by
  rw [nameAt, List.getD_append _ _ _ _ (by rw [List.length_append]; omega),
    List.getD_append_right _ _ _ _ (Nat.le_add_left _ _)]
  simp

theorem nameAt_tripleD (fb fl fd : List Recipe) (j : ℕ) :
    nameAt (fb ++ fl ++ fd) (j + (fb.length + fl.length)) = (fd.getD j default).name := by
  rw [nameAt, List.getD_append_right _ _ _ _ (by rw [List.length_append]; omega)]
  have hsub : j + (fb.length + fl.length) - (fb ++ fl).length = j := by
    rw [List.length_append]
    omega
  rw [hsub]

theorem namesB_eq (fb fl fd : List Recipe) :
    (List.range fb.length).map (nameAt (fb ++ fl ++ fd)) = fb.map Recipe.name := by
  apply List.ext_getElem
  · simp
  · intro n h1 h2
    simp only [List.getElem_map, List.getElem_range]
    have hn : n < fb.length := by simpa using h1
    rw [nameAt_tripleB fb fl fd n hn, List.getD_eq_getElem _ _ hn]

theorem namesL_eq (fb fl fd : List Recipe) :
    ((List.range fl.length).map fun i => i + fb.length).map (nameAt (fb ++ fl ++ fd))
      = fl.map Recipe.name := by
  rw [List.map_map]
  apply List.ext_getElem
  · simp
  · intro n h1 h2
    simp only [List.getElem_map, List.getElem_range, Function.comp]
    have hn : n < fl.length := by simpa using h1
    rw [nameAt_tripleL fb fl fd n hn, List.getD_eq_getElem _ _ hn]

theorem namesD_eq (fb fl fd : List Recipe) :
    ((List.range fd.length).map fun i => i + (fb.length + fl.length)).map
        (nameAt (fb ++ fl ++ fd))
      = fd.map Recipe.name := by
  rw [List.map_map]
  apply List.ext_getElem
  · simp
  · intro n h1 h2
    simp only [List.getElem_map, List.getElem_range, Function.comp]
    have hn : n < fd.length := by simpa using h1
    rw [nameAt_tripleD fb fl fd n, List.getD_eq_getElem _ _ hn]

theorem slotNames_eq (heap0 : List Recipe) (s : LoopState) (slot : DayPlan → ℕ)
    (pool : List ℕ) (hpool : ∀ i ∈ pool, i < heap0.length)
    (hpre : ∃ ext, s.heap = heap0 ++ ext) (hmem : ∀ day ∈ s.days, slot day ∈ pool) :
    slotNames s slot = slotNamesAt heap0 s slot := by
  obtain ⟨ext, hext⟩ := hpre
  rw [slotNames, slotNamesAt]
  apply List.map_congr_left
  intro day hday
  rw [hext, nameAt, List.getD_append _ _ _ _ (hpool _ (hmem day hday))]

theorem slotPropB (rng : ℕ → ℕ) (recent : List String) (fb fl fd : List Recipe) :
    (7 ≤ (fb.map Recipe.name).dedup.length →
        (slotNames (runWeek rng recent fb fl fd) DayPlan.breakfast).Nodup)
      ∧ ∀ j, j < (slotNames (runWeek rng recent fb fl fd) DayPlan.breakfast).length →
          (slotNames (runWeek rng recent fb fl fd) DayPlan.breakfast).getD j ""
              ∈ (slotNames (runWeek rng recent fb fl fd) DayPlan.breakfast).take j →
            ∀ r ∈ fb, r.name
              ∈ (slotNames (runWeek rng recent fb fl fd) DayPlan.breakfast).take j := by
  by_cases hfb : fb = []
  · subst hfb
    constructor
    · intro h7
      simp at h7
    · intro j hj hget r hr
      exact absurd hr (List.not_mem_nil r)
  · have hPb : List.range fb.length ≠ [] := by
      simp only [ne_eq, List.range_eq_nil, List.length_eq_zero]
      exact hfb
    obtain ⟨hmem, hused, hrep, hnd⟩ :=
      genDays_slotB rng recent (List.range fb.length)
        ((List.range fl.length).map fun i => i + fb.length)
        ((List.range fd.length).map fun i => i + (fb.length + fl.length)) (fb ++ fl ++ fd)
        (runWeek_boundsB fb fl fd) (runWeek_boundsL fb fl fd) (runWeek_boundsD fb fl fd) hPb 7
    obtain ⟨hpre, -, -⟩ :=
      genDays_structure rng recent (List.range fb.length)
        ((List.range fl.length).map fun i => i + fb.length)
        ((List.range fd.length).map fun i => i + (fb.length + fl.length)) (fb ++ fl ++ fd)
        (runWeek_boundsB fb fl fd) (runWeek_boundsL fb fl fd) (runWeek_boundsD fb fl fd) 7
    have hconv : slotNames (runWeek rng recent fb fl fd) DayPlan.breakfast
        = slotNamesAt (fb ++ fl ++ fd)
            (genDays rng recent (List.range fb.length)
              ((List.range fl.length).map fun i => i + fb.length)
              ((List.range fd.length).map fun i => i + (fb.length + fl.length))
              (fb ++ fl ++ fd) 7) DayPlan.breakfast :=
      slotNames_eq (fb ++ fl ++ fd) _ DayPlan.breakfast (List.range fb.length)
        (runWeek_boundsB fb fl fd) hpre hmem
    rw [hconv]
    constructor
    · intro h7
      apply hnd
      rw [namesB_eq]
      exact h7
    · intro j hj hget r hr
      obtain ⟨i, hi, rfl⟩ := List.mem_iff_getElem.mp hr
      have hiP : i ∈ List.range fb.length := List.mem_range.mpr hi
      have hv := hrep j hj hget i hiP
      rwa [nameAt_tripleB fb fl fd i hi, List.getD_eq_getElem _ _ hi] at hv

theorem slotPropL (rng : ℕ → ℕ) (recent : List String) (fb fl fd : List Recipe) :
    (7 ≤ (fl.map Recipe.name).dedup.length →
        (slotNames (runWeek rng recent fb fl fd) DayPlan.lunch).Nodup)
      ∧ ∀ j, j < (slotNames (runWeek rng recent fb fl fd) DayPlan.lunch).length →
          (slotNames (runWeek rng recent fb fl fd) DayPlan.lunch).getD j ""
              ∈ (slotNames (runWeek rng recent fb fl fd) DayPlan.lunch).take j →
            ∀ r ∈ fl, r.name
              ∈ (slotNames (runWeek rng recent fb fl fd) DayPlan.lunch).take j := by
  by_cases hfl : fl = []
  · subst hfl
    constructor
    · intro h7
      simp at h7
    · intro j hj hget r hr
      exact absurd hr (List.not_mem_nil r)
  · have hPl : (List.range fl.length).map (fun i => i + fb.length) ≠ [] := by
      simp only [ne_eq, List.map_eq_nil_iff, List.range_eq_nil, List.length_eq_zero]
      exact hfl
    obtain ⟨hmem, hused, hrep, hnd⟩ :=
      genDays_slotL rng recent (List.range fb.length)
        ((List.range fl.length).map fun i => i + fb.length)
        ((List.range fd.length).map fun i => i + (fb.length + fl.length)) (fb ++ fl ++ fd)
        (runWeek_boundsB fb fl fd) (runWeek_boundsL fb fl fd) (runWeek_boundsD fb fl fd) hPl 7
    obtain ⟨hpre, -, -⟩ :=
      genDays_structure rng recent (List.range fb.length)
        ((List.range fl.length).map fun i => i + fb.length)
        ((List.range fd.length).map fun i => i + (fb.length + fl.length)) (fb ++ fl ++ fd)
        (runWeek_boundsB fb fl fd) (runWeek_boundsL fb fl fd) (runWeek_boundsD fb fl fd) 7
    have hconv : slotNames (runWeek rng recent fb fl fd) DayPlan.lunch
        = slotNamesAt (fb ++ fl ++ fd)
            (genDays rng recent (List.range fb.length)
              ((List.range fl.length).map fun i => i + fb.length)
              ((List.range fd.length).map fun i => i + (fb.length + fl.length))
              (fb ++ fl ++ fd) 7) DayPlan.lunch :=
      slotNames_eq (fb ++ fl ++ fd) _ DayPlan.lunch
        ((List.range fl.length).map fun i => i + fb.length)
        (runWeek_boundsL fb fl fd) hpre hmem
    rw [hconv]
    constructor
    · intro h7
      apply hnd
      rw [namesL_eq]
      exact h7
    · intro j hj hget r hr
      obtain ⟨i, hi, rfl⟩ := List.mem_iff_getElem.mp hr
      have hiP : i + fb.length ∈ (List.range fl.length).map fun i => i + fb.length :=
        List.mem_map.mpr ⟨i, List.mem_range.mpr hi, rfl⟩
      have hv := hrep j hj hget (i + fb.length) hiP
      rwa [nameAt_tripleL fb fl fd i hi, List.getD_eq_getElem _ _ hi] at hv

theorem slotPropD (rng : ℕ → ℕ) (recent : List String) (fb fl fd : List Recipe) :
    (7 ≤ (fd.map Recipe.name).dedup.length →
        (slotNames (runWeek rng recent fb fl fd) DayPlan.dinner).Nodup)
      ∧ ∀ j, j < (slotNames (runWeek rng recent fb fl fd) DayPlan.dinner).length →
          (slotNames (runWeek rng recent fb fl fd) DayPlan.dinner).getD j ""
              ∈ (slotNames (runWeek rng recent fb fl fd) DayPlan.dinner).take j →
            ∀ r ∈ fd, r.name
              ∈ (slotNames (runWeek rng recent fb fl fd) DayPlan.dinner).take j := by
  by_cases hfd : fd = []
  · subst hfd
    constructor
    · intro h7
      simp at h7
    · intro j hj hget r hr
      exact absurd hr (List.not_mem_nil r)
  · have hPd : (List.range fd.length).map (fun i => i + (fb.length + fl.length)) ≠ [] := by
      simp only [ne_eq, List.map_eq_nil_iff, List.range_eq_nil, List.length_eq_zero]
      exact hfd
    obtain ⟨hmem, hused, hrep, hnd⟩ :=
      genDays_slotD rng recent (List.range fb.length)
        ((List.range fl.length).map fun i => i + fb.length)
        ((List.range fd.length).map fun i => i + (fb.length + fl.length)) (fb ++ fl ++ fd)
        (runWeek_boundsB fb fl fd) (runWeek_boundsL fb fl fd) (runWeek_boundsD fb fl fd) hPd 7
    obtain ⟨hpre, -, -⟩ :=
      genDays_structure rng recent (List.range fb.length)
        ((List.range fl.length).map fun i => i + fb.length)
        ((List.range fd.length).map fun i => i + (fb.length + fl.length)) (fb ++ fl ++ fd)
        (runWeek_boundsB fb fl fd) (runWeek_boundsL fb fl fd) (runWeek_boundsD fb fl fd) 7
    have hconv : slotNames (runWeek rng recent fb fl fd) DayPlan.dinner
        = slotNamesAt (fb ++ fl ++ fd)
            (genDays rng recent (List.range fb.length)
              ((List.range fl.length).map fun i => i + fb.length)
              ((List.range fd.length).map fun i => i + (fb.length + fl.length))
              (fb ++ fl ++ fd) 7) DayPlan.dinner :=
      slotNames_eq (fb ++ fl ++ fd) _ DayPlan.dinner
        ((List.range fd.length).map fun i => i + (fb.length + fl.length))
        (runWeek_boundsD fb fl fd) hpre hmem
    rw [hconv]
    constructor
    · intro h7
      apply hnd
      rw [namesD_eq]
      exact h7
    · intro j hj hget r hr
      obtain ⟨i, hi, rfl⟩ := List.mem_iff_getElem.mp hr
      have hiP : i + (fb.length + fl.length)
          ∈ (List.range fd.length).map fun i => i + (fb.length + fl.length) :=
        List.mem_map.mpr ⟨i, List.mem_range.mpr hi, rfl⟩
      have hv := hrep j hj hget (i + (fb.length + fl.length)) hiP
      rwa [nameAt_tripleD fb fl fd i, List.getD_eq_getElem _ _ hi] at hv

/-! ### Heap-cell tracking through the normalizer -/

theorem getD_set_ne {α : Type} [Inhabited α] (l : List α) (i j : ℕ) (x : α) (h : j ≠ i) :
    (l.set j x).getD i default = l.getD i default := by
  rw [List.getD_eq_getElem?_getD, List.getD_eq_getElem?_getD, List.getElem?_set_ne h]

theorem getD_scaleAt_self (f : ℚ) (heap : List Recipe) (i : ℕ) (h : i < heap.length) :
    (scaleAt f heap i).getD i default = scaleRecipe f (heap.getD i default) := by
  rw [scaleAt, List.getD_eq_getElem _ _ (by rw [List.length_set]; exact h),
    List.getElem_set_self]

theorem getD_scaleAt_ne (f : ℚ) (heap : List Recipe) (i j : ℕ) (h : j ≠ i) :
    (scaleAt f heap j).getD i default = heap.getD i default := by
  rw [scaleAt, getD_set_ne _ _ _ _ h]

theorem normalizeDayMeals_length (f : ℚ) (heap : List Recipe) (day : DayPlan) :
    (normalizeDayMeals f heap day).length = heap.length := by
  simp [normalizeDayMeals, scaleAt]

theorem foldl_normalize_length (f : ℚ) (days : List DayPlan) :
    ∀ heap : List Recipe, (days.foldl (normalizeDayMeals f) heap).length = heap.length := by
  induction days with
  | nil => intro heap; rfl
  | cons d t ih =>
    intro heap
    rw [List.foldl_cons, ih, normalizeDayMeals_length]

theorem foldl_normalize_getD_zero (f : ℚ) (days : List DayPlan) :
    ∀ heap : List Recipe, 0 < heap.length →
      (∀ day ∈ days, day.breakfast = 0 ∧ day.lunch ≠ 0 ∧ day.dinner ≠ 0) →
      (days.foldl (normalizeDayMeals f) heap).getD 0 default
        = (scaleRecipe f)^[days.length] (heap.getD 0 default) := by
  induction days with
  | nil =>
    intro heap _ _
    simp
  | cons d t ih =>
    intro heap hlen hday
    rw [List.foldl_cons]
    obtain ⟨hb, hl, hd⟩ := hday d (List.mem_cons_self d t)
    have hlen' : 0 < (normalizeDayMeals f heap d).length := by
      rw [normalizeDayMeals_length]
      exact hlen
    rw [ih _ hlen' fun day hd2 => hday day (List.mem_cons_of_mem d hd2)]
    have hkey : (normalizeDayMeals f heap d).getD 0 default
        = scaleRecipe f (heap.getD 0 default) := by
      rw [normalizeDayMeals, hb]
      rw [getD_scaleAt_ne _ _ _ _ hd, getD_scaleAt_ne _ _ _ _ hl, getD_scaleAt_self _ _ _ hlen]
    rw [hkey, ← Function.iterate_succ_apply]
    rfl

theorem scaleRecipe_iterate_calories (f : ℚ) (n : ℕ) (r : Recipe) :
    ((scaleRecipe f)^[n] r).calories = (scaleField f)^[n] r.calories := by
  induction n with
  | zero => rfl
  | succ n ih =>
    rw [Function.iterate_succ_apply', Function.iterate_succ_apply']
    show scaleField f ((scaleRecipe f)^[n] r).calories
      = scaleField f ((scaleField f)^[n] r.calories)
    rw [ih]

/-! ### Structure preservation of the normalizer -/

theorem optimizeWithAi_heap_length (plan : WeeklyPlan) (T : ℚ) :
    (optimizeWithAi plan T).heap.length = plan.heap.length := by
  by_cases hpos : 0 < (plan.days.map DayPlan.total_calories).sum
  · rw [optimizeWithAi_of_pos T hpos]
    exact foldl_normalize_length _ _ _
  · rw [optimizeWithAi_of_nonpos T hpos]

theorem optimizeWithAi_days_fields (plan : WeeklyPlan) (T : ℚ) :
    (optimizeWithAi plan T).days.length = plan.days.length
      ∧ (optimizeWithAi plan T).days.map DayPlan.breakfast = plan.days.map DayPlan.breakfast
      ∧ (optimizeWithAi plan T).days.map DayPlan.lunch = plan.days.map DayPlan.lunch
      ∧ (optimizeWithAi plan T).days.map DayPlan.dinner = plan.days.map DayPlan.dinner
      ∧ (optimizeWithAi plan T).days.map DayPlan.nutrition_score
          = plan.days.map DayPlan.nutrition_score
      ∧ (optimizeWithAi plan T).days.map DayPlan.variety_score
          = plan.days.map DayPlan.variety_score := by
  by_cases hpos : 0 < (plan.days.map DayPlan.total_calories).sum
  · rw [optimizeWithAi_of_pos T hpos]
    refine ⟨by simp, ?_, ?_, ?_, ?_, ?_⟩ <;>
      · show (List.map _ (List.map _ plan.days)) = _
        rw [List.map_map]
        rfl
  · rw [optimizeWithAi_of_nonpos T hpos]
    exact ⟨rfl, rfl, rfl, rfl, rfl, rfl⟩

theorem week_post_facts (rng : ℕ → ℕ) (recent : List String) (fb fl fd : List Recipe)
    (T : ℚ) :
    (optimizeWithAi ⟨(runWeek rng recent fb fl fd).heap, (runWeek rng recent fb fl fd).days⟩
        T).days.length = 7
      ∧ (∀ day ∈ (optimizeWithAi ⟨(runWeek rng recent fb fl fd).heap,
            (runWeek rng recent fb fl fd).days⟩ T).days,
          day.breakfast < (optimizeWithAi ⟨(runWeek rng recent fb fl fd).heap,
              (runWeek rng recent fb fl fd).days⟩ T).heap.length
            ∧ day.lunch < (optimizeWithAi ⟨(runWeek rng recent fb fl fd).heap,
                (runWeek rng recent fb fl fd).days⟩ T).heap.length
            ∧ day.dinner < (optimizeWithAi ⟨(runWeek rng recent fb fl fd).heap,
                (runWeek rng recent fb fl fd).days⟩ T).heap.length)
      ∧ (runWeek rng recent fb fl fd).days.map DayPlan.total_calories
          = (runWeek rng recent fb fl fd).days.map (fun day =>
              ((runWeek rng recent fb fl fd).heap.getD day.breakfast default).calories.getD 300
                + ((runWeek rng recent fb fl fd).heap.getD day.lunch default).calories.getD 400
                + ((runWeek rng recent fb fl fd).heap.getD day.dinner default).calories.getD 350)
      ∧ (optimizeWithAi ⟨(runWeek rng recent fb fl fd).heap,
            (runWeek rng recent fb fl fd).days⟩ T).days.map DayPlan.nutrition_score
          = (runWeek rng recent fb fl fd).days.map DayPlan.nutrition_score
      ∧ (optimizeWithAi ⟨(runWeek rng recent fb fl fd).heap,
            (runWeek rng recent fb fl fd).days⟩ T).days.map DayPlan.variety_score
          = (runWeek rng recent fb fl fd).days.map DayPlan.variety_score
      ∧ (runWeek rng recent fb fl fd).days.map DayPlan.nutrition_score
          = (runWeek rng recent fb fl fd).days.map (fun day =>
              calculateNutritionScore (mealsOfDay (runWeek rng recent fb fl fd).heap day))
      ∧ (runWeek rng recent fb fl fd).days.map DayPlan.variety_score
          = (runWeek rng recent fb fl fd).days.map (fun day =>
              calculateVarietyScore (mealsOfDay (runWeek rng recent fb fl fd).heap day)
                recent) := by
  obtain ⟨-, hlen, hok⟩ :=
    genDays_structure rng recent (List.range fb.length)
      ((List.range fl.length).map fun i => i + fb.length)
      ((List.range fd.length).map fun i => i + (fb.length + fl.length)) (fb ++ fl ++ fd)
      (runWeek_boundsB fb fl fd) (runWeek_boundsL fb fl fd) (runWeek_boundsD fb fl fd) 7
  have hlen' : (runWeek rng recent fb fl fd).days.length = 7 := hlen
  have hok' : ∀ day ∈ (runWeek rng recent fb fl fd).days,
      DayOk (runWeek rng recent fb fl fd).heap recent day := hok
  obtain ⟨hplen, hpB, hpL, hpD, hpN, hpV⟩ :=
    optimizeWithAi_days_fields
      ⟨(runWeek rng recent fb fl fd).heap, (runWeek rng recent fb fl fd).days⟩ T
  have hheaplen :=
    optimizeWithAi_heap_length
      ⟨(runWeek rng recent fb fl fd).heap, (runWeek rng recent fb fl fd).days⟩ T
  refine ⟨?_, ?_, ?_, hpN, hpV, ?_, ?_⟩
  · exact hplen.trans hlen'
  · intro day hday
    have hb : day.breakfast
        ∈ (runWeek rng recent fb fl fd).days.map DayPlan.breakfast := by
      rw [← hpB]
      exact List.mem_map_of_mem _ hday
    have hl : day.lunch ∈ (runWeek rng recent fb fl fd).days.map DayPlan.lunch := by
      rw [← hpL]
      exact List.mem_map_of_mem _ hday
    have hd : day.dinner ∈ (runWeek rng recent fb fl fd).days.map DayPlan.dinner := by
      rw [← hpD]
      exact List.mem_map_of_mem _ hday
    rcases List.mem_map.mp hb with ⟨d1, hd1, he1⟩
    rcases List.mem_map.mp hl with ⟨d2, hd2, he2⟩
    rcases List.mem_map.mp hd with ⟨d3, hd3, he3⟩
    refine ⟨?_, ?_, ?_⟩
    · rw [hheaplen, ← he1]
      exact (hok' d1 hd1).1
    · rw [hheaplen, ← he2]
      exact (hok' d2 hd2).2.1
    · rw [hheaplen, ← he3]
      exact (hok' d3 hd3).2.2.1
  · apply List.map_congr_left
    intro day hday
    exact (hok' day hday).2.2.2.1
  · apply List.map_congr_left
    intro day hday
    exact (hok' day hday).2.2.2.2.1
  · apply List.map_congr_left
    intro day hday
    exact (hok' day hday).2.2.2.2.2

/-! ### Set-counting bridge for the variety score -/

theorem length_dedup_filter_eq_card (l recent : List String) :
    (l.dedup.filter fun n => !(recent.contains n)).length
      = (l.toFinset \ recent.toFinset).card := by
  have hperm : (l.dedup.filter fun n => !(recent.contains n)).Perm
      ((l.filter fun n => !(recent.contains n)).dedup) := by
    rw [List.perm_ext_iff_of_nodup (List.Nodup.filter _ (List.nodup_dedup l))
      (List.nodup_dedup _)]
    intro a
    simp [List.mem_filter, List.mem_dedup]
  rw [hperm.length_eq, ← List.card_toFinset, List.toFinset_filter, Finset.sdiff_eq_filter]
  apply congrArg
  apply Finset.filter_congr
  intro x _
  simp

/-! ### Claim theorems -/

/-- Claim C2 (confirmed): if the pre-normalization weekly total is
strictly positive, the post-normalization sum of the seven
`total_calories` differs from `calorie_target * 7` by at most 7 (one
truncation unit per day); if the pre-normalization total is zero the plan
is returned unchanged. -/
theorem calorie_conservation (plan : WeeklyPlan) (T : ℚ) (h7 : plan.days.length = 7) :
    (0 < totalCal plan → |totalCal (optimizeWithAi plan T) - T * 7| ≤ 7)
      ∧ (totalCal plan = 0 → optimizeWithAi plan T = plan) := by
  constructor
  · intro hpos
    have hS : 0 < (plan.days.map DayPlan.total_calories).sum := hpos
    have hne : (plan.days.map DayPlan.total_calories).sum ≠ 0 := ne_of_gt hS
    rw [totalCal, optimizeWithAi_of_pos T hS]
    have hkey := sum_pytrunc_close
      (T * 7 / (plan.days.map DayPlan.total_calories).sum)
      (plan.days.map DayPlan.total_calories)
    rw [div_mul_cancel₀ _ hne] at hkey
    rw [List.map_map] at hkey
    have hmaps :
        ((plan.days.map fun day =>
            { day with total_calories :=
                ((pytrunc (day.total_calories
                  * (T * 7 / (plan.days.map DayPlan.total_calories).sum)) : ℤ) : ℚ) }).map
          DayPlan.total_calories)
        = plan.days.map
            ((fun x => ((pytrunc (x * (T * 7 / (plan.days.map DayPlan.total_calories).sum)) : ℤ) : ℚ))
              ∘ DayPlan.total_calories) := by
      rw [List.map_map]
      rfl
    simp only [hmaps]
    have hlen : ((plan.days.map DayPlan.total_calories).length : ℚ) = 7 := by
      rw [List.length_map, h7]
      norm_num
    rw [List.length_map] at hkey
    rw [h7] at hkey
    simpa using hkey
  · intro h0
    rw [totalCal] at h0
    apply optimizeWithAi_of_nonpos
    rw [h0]
    exact lt_irrefl 0

/-- Witness for C2 at a concrete 7-day plan of 700-calorie days and
target 2000. -/
theorem calorie_conservation_witness :
    0 < totalCal planW2
      ∧ |totalCal (optimizeWithAi planW2 2000) - 2000 * 7| ≤ 7
      ∧ (totalCal planW2 = 0 → optimizeWithAi planW2 2000 = planW2) := by
  have h := calorie_conservation planW2 2000 (by rfl)
  have hpos : 0 < totalCal planW2 := by
    rw [totalCal]
    show (0:ℚ) < ((List.replicate 7 (⟨0, 0, 0, 700, 0, 0⟩ : DayPlan)).map
      DayPlan.total_calories).sum
    rw [List.map_replicate, List.sum_replicate]
    norm_num
  exact ⟨hpos, h.1 hpos, h.2⟩

/-- Counterexample for C5 as stated: for the negative calorie target
`-100` (explicitly included in the claim's quantification), the first
day's `total_calories` after normalization is negative, because
`_optimize_with_ai` clamps the recipe fields with `max(0, ...)` but not
the day totals. -/
theorem day_total_negative_counterexample :
    ((optimizeWithAi planC5 (-100)).days.getD 0 default).total_calories < 0 := by
  have hpos : 0 < (planC5.days.map DayPlan.total_calories).sum := by
    show (0:ℚ) < ((List.replicate 7 (⟨0, 0, 0, 100, 0, 0⟩ : DayPlan)).map
      DayPlan.total_calories).sum
    rw [List.map_replicate, List.sum_replicate]
    norm_num
  rw [optimizeWithAi_of_pos _ hpos]
  have hcast : ((-100 : ℤ) : ℚ) = -100 := by norm_num
  have hceil : ⌈(-100 : ℚ)⌉ = -100 := by rw [← hcast, Int.ceil_intCast]
  have hsum : (planC5.days.map DayPlan.total_calories).sum = 700 := by
    show ((List.replicate 7 (⟨0, 0, 0, 100, 0, 0⟩ : DayPlan)).map
      DayPlan.total_calories).sum = 700
    rw [List.map_replicate, List.sum_replicate]
    norm_num
  simp only [planC5, List.map_replicate, List.getD_eq_getElem?_getD, hsum]
  norm_num [pytrunc, hceil]

/-- Claim C5 (corrected): after normalization with a NON-NEGATIVE calorie
target, no nutrient field of a plan whose fields were non-negative is
negative — recipe calories/protein/carbs/fat are clamped at zero, and the
day totals scale by a non-negative factor.  (As stated the claim also
covered negative targets, where the unclamped day totals go negative; see
the counterexample.) -/
theorem normalization_nonneg (plan : WeeklyPlan) (T : ℚ) (hT : 0 ≤ T)
    (hheap : ∀ r ∈ plan.heap, RecipeNonneg r)
    (hdays : ∀ day ∈ plan.days, 0 ≤ day.total_calories) :
    (∀ r ∈ (optimizeWithAi plan T).heap, RecipeNonneg r)
      ∧ ∀ day ∈ (optimizeWithAi plan T).days, 0 ≤ day.total_calories := by
  by_cases hpos : 0 < (plan.days.map DayPlan.total_calories).sum
  · rw [optimizeWithAi_of_pos T hpos]
    constructor
    · intro r hr
      exact foldl_normalize_nonneg _ _ _ hheap r hr
    · intro day hday
      rcases List.mem_map.mp hday with ⟨d0, hd0, rfl⟩
      have hf : 0 ≤ T * 7 / (plan.days.map DayPlan.total_calories).sum :=
        div_nonneg (by linarith) (le_of_lt hpos)
      have hprod : 0 ≤ d0.total_calories * (T * 7 / (plan.days.map DayPlan.total_calories).sum) :=
        mul_nonneg (hdays d0 hd0) hf
      simpa using Int.cast_nonneg.mpr (pytrunc_nonneg hprod)
  · rw [optimizeWithAi_of_nonpos T hpos]
    exact ⟨hheap, hdays⟩

/-- Counterexample for C6 as stated: for the day `[X, X, Y]` and a history
whose global last three entries belong to user `"v"`, the code's variety
score (global last-3 history, denominator `len(current_meals) = 3`)
differs from the claim's formula (this user's last-3 history, denominator
`|current set|`). -/
theorem variety_score_counterexample :
    calculateVarietyScore mealsC6 (getUserMealHistoryScores historyC6)
      ≠ varietyScoreClaim "u" historyC6 mealsC6 := by
  have h1 : calculateVarietyScore mealsC6 (getUserMealHistoryScores historyC6)
      = min 10 (((2 : ℕ) : ℚ) / ((3 : ℕ) : ℚ) * 10) := rfl
  have h2 : varietyScoreClaim "u" historyC6 mealsC6
      = min 10 (((1 : ℕ) : ℚ) / ((2 : ℕ) : ℚ) * 10) := rfl
  rw [h1, h2]
  rw [min_eq_right (by push_cast; norm_num), min_eq_right (by push_cast; norm_num)]
  push_cast
  norm_num

/-- Claim C6 (corrected): for a day's three selected meals, the variety
score is `min(10, |new| / 3 * 10)` where `new` is the set of current meal
names minus the recent names returned by the history helper — the
denominator is the number of meal entries, not the number of distinct
names, and the recent names are drawn from the last three entries of the
global history, not of this user's history. -/
theorem variety_score_formula (history : List HistoryEntry) (a b c : Recipe) :
    calculateVarietyScore [a, b, c] (getUserMealHistoryScores history)
      = min 10 (((([a.name, b.name, c.name].toFinset
          \ (getUserMealHistoryScores history).toFinset).card : ℚ) / 3) * 10) := by
  simp only [calculateVarietyScore, List.map_cons, List.map_nil]
  rw [if_pos (by simp)]
  rw [length_dedup_filter_eq_card [a.name, b.name, c.name] (getUserMealHistoryScores history)]
  norm_num

/-- Claim C7 (confirmed): on meals whose macro fields are non-negative
(the data model's invariant), the nutrition score is exactly
`min(10, |ratio - 0.3| * 100)` with the `0.33` ratio default applying
when the macro total is zero. -/
theorem nutrition_score_formula (meals : List Recipe)
    (h : ∀ m ∈ meals, 0 ≤ m.protein.getD 0 ∧ 0 ≤ m.carbs.getD 0 ∧ 0 ≤ m.fat.getD 0) :
    calculateNutritionScore meals = nutritionScoreClaim meals := by
  have hp : 0 ≤ (meals.map fun m => m.protein.getD 0).sum := by
    apply List.sum_nonneg
    intro x hx
    rcases List.mem_map.mp hx with ⟨m, hm, rfl⟩
    exact (h m hm).1
  have hc : 0 ≤ (meals.map fun m => m.carbs.getD 0).sum := by
    apply List.sum_nonneg
    intro x hx
    rcases List.mem_map.mp hx with ⟨m, hm, rfl⟩
    exact (h m hm).2.1
  have hf : 0 ≤ (meals.map fun m => m.fat.getD 0).sum := by
    apply List.sum_nonneg
    intro x hx
    rcases List.mem_map.mp hx with ⟨m, hm, rfl⟩
    exact (h m hm).2.2
  simp only [calculateNutritionScore, nutritionScoreClaim]
  by_cases h0 : (meals.map fun m => m.protein.getD 0).sum
      + (meals.map fun m => m.carbs.getD 0).sum + (meals.map fun m => m.fat.getD 0).sum = 0
  · rw [if_neg (by rw [h0]; exact lt_irrefl 0), if_pos h0]
  · have hlt : 0 < (meals.map fun m => m.protein.getD 0).sum
        + (meals.map fun m => m.carbs.getD 0).sum + (meals.map fun m => m.fat.getD 0).sum :=
      lt_of_le_of_ne (by linarith) (Ne.symm h0)
    rw [if_pos hlt, if_neg h0]

/-- Witness for C7 at a concrete day of three meals with positive macros. -/
theorem nutrition_score_formula_witness :
    (∀ m ∈ mealsC7, 0 ≤ m.protein.getD 0 ∧ 0 ≤ m.carbs.getD 0 ∧ 0 ≤ m.fat.getD 0)
      ∧ calculateNutritionScore mealsC7 = nutritionScoreClaim mealsC7 :=
  ⟨by decide, nutrition_score_formula mealsC7 (by decide)⟩

/-- Claim C8 (confirmed): the constraint filter keeps a recipe iff its
diet tag (defaulting to `"vegetarian"` when absent) matches the requested
diet or the diet is `"mixed"`, and no allergy string occurs
case-insensitively in the serialized ingredients; consequently no kept
recipe contains any allergy string in its lowercased serialization. -/
theorem filter_characterization (pool : List Recipe) (diet_type : String)
    (allergies : List String) :
    (∀ r : Recipe, r ∈ filterPool pool diet_type allergies ↔
      r ∈ pool ∧ ((r.type.getD "vegetarian" = diet_type ∨ diet_type = "mixed")
        ∧ ∀ a ∈ allergies, ¬ strContains a.toLower (jsonDumps r.ingredients).toLower))
      ∧ ∀ r ∈ filterPool pool diet_type allergies, ∀ a ∈ allergies,
          ¬ strContains a.toLower (jsonDumps r.ingredients).toLower := by
  have hmain : ∀ r : Recipe, r ∈ filterPool pool diet_type allergies ↔
      r ∈ pool ∧ ((r.type.getD "vegetarian" = diet_type ∨ diet_type = "mixed")
        ∧ ∀ a ∈ allergies, ¬ strContains a.toLower (jsonDumps r.ingredients).toLower) := by
    intro r
    rw [filterPool, List.mem_filter]
    apply and_congr_right
    intro _
    simp [keepRecipe, strContainsB]
  exact ⟨hmain, fun r hr => ((hmain r).mp hr).2.2⟩

/-- Counterexample for C3 as stated: a breakfast pool of seven recipes
(so "at least 7 recipes") that share one name makes the week's breakfast
selections repeat that name. -/
theorem no_repeat_counterexample :
    7 ≤ poolDup7.length
      ∧ ¬ (slotNames (runWeek (fun _ => 0) [] poolDup7 [] []) DayPlan.breakfast).Nodup :=
  ⟨by decide, by decide⟩

/-- Claim C3 (corrected): for every filtered per-slot pool with at least
7 pairwise-distinct recipe NAMES, the 7-day loop selects 7 pairwise-
distinct names for that slot; and for every pool (in particular one with
fewer than 7 recipes), a repeated selection at position `j` can only
happen after every distinct name of the pool already occurs among the
first `j` selections. -/
theorem no_repeat_selection (rng : ℕ → ℕ) (recent : List String) (fb fl fd : List Recipe) :
    ((7 ≤ (fb.map Recipe.name).dedup.length →
        (slotNames (runWeek rng recent fb fl fd) DayPlan.breakfast).Nodup)
      ∧ ∀ j, j < (slotNames (runWeek rng recent fb fl fd) DayPlan.breakfast).length →
          (slotNames (runWeek rng recent fb fl fd) DayPlan.breakfast).getD j ""
              ∈ (slotNames (runWeek rng recent fb fl fd) DayPlan.breakfast).take j →
            ∀ r ∈ fb, r.name
              ∈ (slotNames (runWeek rng recent fb fl fd) DayPlan.breakfast).take j)
    ∧ ((7 ≤ (fl.map Recipe.name).dedup.length →
        (slotNames (runWeek rng recent fb fl fd) DayPlan.lunch).Nodup)
      ∧ ∀ j, j < (slotNames (runWeek rng recent fb fl fd) DayPlan.lunch).length →
          (slotNames (runWeek rng recent fb fl fd) DayPlan.lunch).getD j ""
              ∈ (slotNames (runWeek rng recent fb fl fd) DayPlan.lunch).take j →
            ∀ r ∈ fl, r.name
              ∈ (slotNames (runWeek rng recent fb fl fd) DayPlan.lunch).take j)
    ∧ ((7 ≤ (fd.map Recipe.name).dedup.length →
        (slotNames (runWeek rng recent fb fl fd) DayPlan.dinner).Nodup)
      ∧ ∀ j, j < (slotNames (runWeek rng recent fb fl fd) DayPlan.dinner).length →
          (slotNames (runWeek rng recent fb fl fd) DayPlan.dinner).getD j ""
              ∈ (slotNames (runWeek rng recent fb fl fd) DayPlan.dinner).take j →
            ∀ r ∈ fd, r.name
              ∈ (slotNames (runWeek rng recent fb fl fd) DayPlan.dinner).take j) :=
  ⟨slotPropB rng recent fb fl fd, slotPropL rng recent fb fl fd, slotPropD rng recent fb fl fd⟩

/-- Witness for the corrected C3 at a pool of seven distinctly-named
recipes: the week's breakfast names are pairwise distinct. -/
theorem no_repeat_witness :
    7 ≤ (poolDistinct7.map Recipe.name).dedup.length
      ∧ (slotNames (runWeek (fun _ => 0) [] poolDistinct7 [] []) DayPlan.breakfast).Nodup :=
  ⟨by decide, (no_repeat_selection (fun _ => 0) [] poolDistinct7 [] []).1.1 (by decide)⟩

/-- Claim C9 (confirmed): when a slot's filtered pool is empty, every day
of the week carries the synthetic fallback recipe for that slot — with
the fixed values 300 kcal, 15 g protein, 40 g carbs, 8 g fat, 15 min prep
and the generic ingredient mapping — and that slot's used set stays
empty, so the fallback name is never added to it. -/
theorem fallback_on_empty_pool (rng : ℕ → ℕ) (recent : List String) (fb fl fd : List Recipe) :
    (fb = [] →
      (runWeek rng recent fb fl fd).days.map
          (fun day => (runWeek rng recent fb fl fd).heap.getD day.breakfast default)
        = List.replicate 7 (⟨"Fallback Breakfast", [("basic_food", 100), ("vegetables", 50)],
            some 300, some 15, some 40, some 8, some 15, some "vegetarian"⟩ : Recipe)
        ∧ (runWeek rng recent fb fl fd).usedB = [])
      ∧ (fl = [] →
        (runWeek rng recent fb fl fd).days.map
            (fun day => (runWeek rng recent fb fl fd).heap.getD day.lunch default)
          = List.replicate 7 (⟨"Fallback Lunch", [("basic_food", 100), ("vegetables", 50)],
              some 300, some 15, some 40, some 8, some 15, some "vegetarian"⟩ : Recipe)
          ∧ (runWeek rng recent fb fl fd).usedL = [])
      ∧ (fd = [] →
        (runWeek rng recent fb fl fd).days.map
            (fun day => (runWeek rng recent fb fl fd).heap.getD day.dinner default)
          = List.replicate 7 (⟨"Fallback Dinner", [("basic_food", 100), ("vegetables", 50)],
              some 300, some 15, some 40, some 8, some 15, some "vegetarian"⟩ : Recipe)
          ∧ (runWeek rng recent fb fl fd).usedD = []) := by
  refine ⟨?_, ?_, ?_⟩
  · intro hfb
    subst hfb
    rw [show runWeek rng recent [] fl fd = genDays rng recent []
        ((List.range fl.length).map fun i => i + ([] : List Recipe).length)
        ((List.range fd.length).map fun i => i + (([] : List Recipe).length + fl.length))
        ([] ++ fl ++ fd) 7 from rfl]
    obtain ⟨hused, hfall⟩ := genDays_emptyB rng recent
      ((List.range fl.length).map fun i => i + ([] : List Recipe).length)
      ((List.range fd.length).map fun i => i + (([] : List Recipe).length + fl.length))
      ([] ++ fl ++ fd) (runWeek_boundsL [] fl fd) (runWeek_boundsD [] fl fd) 7
    obtain ⟨-, hlen, -⟩ := genDays_structure rng recent []
      ((List.range fl.length).map fun i => i + ([] : List Recipe).length)
      ((List.range fd.length).map fun i => i + (([] : List Recipe).length + fl.length))
      ([] ++ fl ++ fd) (by intro i hi; cases hi) (runWeek_boundsL [] fl fd)
      (runWeek_boundsD [] fl fd) 7
    refine ⟨?_, hused⟩
    apply List.eq_replicate_iff.mpr
    constructor
    · rw [List.length_map]
      exact hlen
    · intro b hb
      rcases List.mem_map.mp hb with ⟨day, hday, rfl⟩
      rw [hfall day hday]
      decide
  · intro hfl
    subst hfl
    rw [show runWeek rng recent fb [] fd = genDays rng recent (List.range fb.length) []
        ((List.range fd.length).map fun i => i + (fb.length + ([] : List Recipe).length))
        (fb ++ [] ++ fd) 7 from rfl]
    obtain ⟨hused, hfall⟩ := genDays_emptyL rng recent (List.range fb.length)
      ((List.range fd.length).map fun i => i + (fb.length + ([] : List Recipe).length))
      (fb ++ [] ++ fd) (runWeek_boundsB fb [] fd) (runWeek_boundsD fb [] fd) 7
    obtain ⟨-, hlen, -⟩ := genDays_structure rng recent (List.range fb.length) []
      ((List.range fd.length).map fun i => i + (fb.length + ([] : List Recipe).length))
      (fb ++ [] ++ fd) (runWeek_boundsB fb [] fd) (by intro i hi; cases hi)
      (runWeek_boundsD fb [] fd) 7
    refine ⟨?_, hused⟩
    apply List.eq_replicate_iff.mpr
    constructor
    · rw [List.length_map]
      exact hlen
    · intro b hb
      rcases List.mem_map.mp hb with ⟨day, hday, rfl⟩
      rw [hfall day hday]
      decide
  · intro hfd
    subst hfd
    rw [show runWeek rng recent fb fl [] = genDays rng recent (List.range fb.length)
        ((List.range fl.length).map fun i => i + fb.length) []
        (fb ++ fl ++ []) 7 from rfl]
    obtain ⟨hused, hfall⟩ := genDays_emptyD rng recent (List.range fb.length)
      ((List.range fl.length).map fun i => i + fb.length)
      (fb ++ fl ++ []) (runWeek_boundsB fb fl []) (runWeek_boundsL fb fl []) 7
    obtain ⟨-, hlen, -⟩ := genDays_structure rng recent (List.range fb.length)
      ((List.range fl.length).map fun i => i + fb.length) []
      (fb ++ fl ++ []) (runWeek_boundsB fb fl []) (runWeek_boundsL fb fl [])
      (by intro i hi; cases hi) 7
    refine ⟨?_, hused⟩
    apply List.eq_replicate_iff.mpr
    constructor
    · rw [List.length_map]
      exact hlen
    · intro b hb
      rcases List.mem_map.mp hb with ⟨day, hday, rfl⟩
      rw [hfall day hday]
      decide

/-- Witness for C9 with all three pools empty. -/
theorem fallback_on_empty_pool_witness :
    (runWeek (fun _ => 0) [] [] [] []).days.map
        (fun day => (runWeek (fun _ => 0) [] [] [] []).heap.getD day.breakfast default)
      = List.replicate 7 (⟨"Fallback Breakfast", [("basic_food", 100), ("vegetables", 50)],
          some 300, some 15, some 40, some 8, some 15, some "vegetarian"⟩ : Recipe)
      ∧ (runWeek (fun _ => 0) [] [] [] []).usedB = [] :=
  (fallback_on_empty_pool (fun _ => 0) [] [] [] []).1 rfl

/-- Claim C4 (confirmed): for every preferences input (any pools, diet
tag, allergies, calorie target and random stream) plan generation is a
total function producing exactly 7 days, each with its three meal slots
populated by a valid heap reference, and each day's pre-normalization
calorie total substitutes the slot defaults 300/400/350 for missing
calorie fields. -/
theorem total_generation (prefs : Preferences) (catalog : Catalog) (rng : ℕ → ℕ)
    (recent : List String) :
    (generatePersonalizedPlan prefs catalog rng recent).days.length = 7
      ∧ (∀ day ∈ (generatePersonalizedPlan prefs catalog rng recent).days,
          day.breakfast < (generatePersonalizedPlan prefs catalog rng recent).heap.length
            ∧ day.lunch < (generatePersonalizedPlan prefs catalog rng recent).heap.length
            ∧ day.dinner < (generatePersonalizedPlan prefs catalog rng recent).heap.length)
      ∧ (pipelinePre prefs catalog rng recent).days.map DayPlan.total_calories
          = (pipelinePre prefs catalog rng recent).days.map (fun day =>
              ((pipelinePre prefs catalog rng recent).heap.getD
                  day.breakfast default).calories.getD 300
                + ((pipelinePre prefs catalog rng recent).heap.getD
                    day.lunch default).calories.getD 400
                + ((pipelinePre prefs catalog rng recent).heap.getD
                    day.dinner default).calories.getD 350) := by
  have h := week_post_facts rng recent
    (filterPool catalog.breakfast (prefs.diet_type.getD "vegetarian") prefs.allergies)
    (filterPool catalog.lunch (prefs.diet_type.getD "vegetarian") prefs.allergies)
    (filterPool catalog.dinner (prefs.diet_type.getD "vegetarian") prefs.allergies)
    (prefs.calorie_target.getD 2000)
  exact ⟨h.1, h.2.1, h.2.2.1⟩

/-- Witness for C4 at a concrete preferences/catalog pair. -/
theorem total_generation_witness :
    (generatePersonalizedPlan prefsC1 catalogC1 (fun _ => 0) []).days.length = 7 :=
  (total_generation prefsC1 catalogC1 (fun _ => 0) []).1

/-- Claim C10 (confirmed): normalization never touches the two score
fields — after `_optimize_with_ai` every day still carries exactly the
scores computed during assembly from the unscaled meal objects. -/
theorem scores_survive_normalization (prefs : Preferences) (catalog : Catalog)
    (rng : ℕ → ℕ) (recent : List String) :
    (generatePersonalizedPlan prefs catalog rng recent).days.map DayPlan.nutrition_score
        = (pipelinePre prefs catalog rng recent).days.map DayPlan.nutrition_score
      ∧ (generatePersonalizedPlan prefs catalog rng recent).days.map DayPlan.variety_score
          = (pipelinePre prefs catalog rng recent).days.map DayPlan.variety_score
      ∧ (pipelinePre prefs catalog rng recent).days.map DayPlan.nutrition_score
          = (pipelinePre prefs catalog rng recent).days.map (fun day =>
              calculateNutritionScore
                (mealsOfDay (pipelinePre prefs catalog rng recent).heap day))
      ∧ (pipelinePre prefs catalog rng recent).days.map DayPlan.variety_score
          = (pipelinePre prefs catalog rng recent).days.map (fun day =>
              calculateVarietyScore
                (mealsOfDay (pipelinePre prefs catalog rng recent).heap day) recent) := by
  have h := week_post_facts rng recent
    (filterPool catalog.breakfast (prefs.diet_type.getD "vegetarian") prefs.allergies)
    (filterPool catalog.lunch (prefs.diet_type.getD "vegetarian") prefs.allergies)
    (filterPool catalog.dinner (prefs.diet_type.getD "vegetarian") prefs.allergies)
    (prefs.calorie_target.getD 2000)
  exact ⟨h.2.2.2.1, h.2.2.2.2.1, h.2.2.2.2.2.1, h.2.2.2.2.2.2⟩

/-- Witness for C8: a matching recipe with no allergy conflicts is kept. -/
theorem filter_characterization_witness :
    mkNamed "W" ∈ filterPool [mkNamed "W"] "vegetarian" [] :=
  ((filter_characterization [mkNamed "W"] "vegetarian" []).1 (mkNamed "W")).mpr
    ⟨List.mem_singleton.mpr rfl, Or.inl rfl, fun a ha => absurd ha (List.not_mem_nil a)⟩

/-- Witness for the corrected C5 at a concrete plan and target 2000. -/
theorem normalization_nonneg_witness :
    (∀ r ∈ (optimizeWithAi planC5 2000).heap, RecipeNonneg r)
      ∧ ∀ day ∈ (optimizeWithAi planC5 2000).days, 0 ≤ day.total_calories :=
  normalization_nonneg planC5 2000 (by norm_num) (by decide)
    (by
      intro day hday
      have : day = ⟨0, 0, 0, 100, 0, 0⟩ := by
        have h2 : day ∈ List.replicate 7 (⟨0, 0, 0, 100, 0, 0⟩ : DayPlan) := hday
        exact List.eq_of_mem_replicate h2
      rw [this]
      norm_num)

/-- Claim C1 (code bug): the canonical catalog is NOT left unchanged.
`pick_recipe` returns the pool's dict objects by reference and
`_optimize_with_ai` assigns `recipe[k] = ...` through those references,
so the pool entry itself is mutated — and a recipe reused on several days
is rescaled once per day.  For the one-recipe vegetarian catalog
(`catalogC1`, breakfast calories 100) and target 2000 the plan reuses the
recipe all 7 days, and after normalization the catalog entry's calories
are 154914, not the original 100 (factor 20/7 applied in place seven
times). -/
theorem catalog_entry_mutated :
    ((generatePersonalizedPlan prefsC1 catalogC1 (fun _ => 0) []).heap.getD 0 default).calories
      ≠ some 100 := by
  have h0 : generatePersonalizedPlan prefsC1 catalogC1 (fun _ => 0) []
      = optimizeWithAi ⟨(pipelinePre prefsC1 catalogC1 (fun _ => 0) []).heap,
          (pipelinePre prefsC1 catalogC1 (fun _ => 0) []).days⟩
          (prefsC1.calorie_target.getD 2000) := rfl
  have hT : prefsC1.calorie_target.getD 2000 = 2000 := rfl
  rw [hT] at h0
  have hBd : ∀ day ∈ (pipelinePre prefsC1 catalogC1 (fun _ => 0) []).days,
      day.breakfast = 0 ∧ day.lunch ≠ 0 ∧ day.dinner ≠ 0 := by decide
  have hlen : 0 < (pipelinePre prefsC1 catalogC1 (fun _ => 0) []).heap.length := by decide
  have hcell : (pipelinePre prefsC1 catalogC1 (fun _ => 0) []).heap.getD 0 default
      = ⟨"Oats", [("oats", 50)], some 100, some 10, some 10, some 10, some 10,
          some "vegetarian"⟩ := by decide
  have htot : (pipelinePre prefsC1 catalogC1 (fun _ => 0) []).days.map DayPlan.total_calories
      = List.replicate 7 ((100 : ℚ) + 300 + 300) := rfl
  have hsum : (((⟨(pipelinePre prefsC1 catalogC1 (fun _ => 0) []).heap,
        (pipelinePre prefsC1 catalogC1 (fun _ => 0) []).days⟩ : WeeklyPlan)).days.map
          DayPlan.total_calories).sum = 4900 := by
    show ((pipelinePre prefsC1 catalogC1 (fun _ => 0) []).days.map
      DayPlan.total_calories).sum = 4900
    rw [htot, List.sum_replicate]
    norm_num
  have hpos : 0 < (((⟨(pipelinePre prefsC1 catalogC1 (fun _ => 0) []).heap,
      (pipelinePre prefsC1 catalogC1 (fun _ => 0) []).days⟩ : WeeklyPlan)).days.map
        DayPlan.total_calories).sum := by
    rw [hsum]
    norm_num
  have hf : (2000 : ℚ) * 7 / (((⟨(pipelinePre prefsC1 catalogC1 (fun _ => 0) []).heap,
      (pipelinePre prefsC1 catalogC1 (fun _ => 0) []).days⟩ : WeeklyPlan)).days.map
        DayPlan.total_calories).sum = 20 / 7 := by
    rw [hsum]
    norm_num
  rw [h0, optimizeWithAi_of_pos 2000 hpos, hf]
  simp only []
  rw [foldl_normalize_getD_zero (20 / 7) (pipelinePre prefsC1 catalogC1 (fun _ => 0) []).days
    (pipelinePre prefsC1 catalogC1 (fun _ => 0) []).heap hlen hBd]
  rw [show (pipelinePre prefsC1 catalogC1 (fun _ => 0) []).days.length = 7 from rfl, hcell]
  rw [scaleRecipe_iterate_calories]
  show (scaleField ((20 : ℚ) / 7))^[7] (some 100) ≠ some 100
  have e1 : scaleField ((20 : ℚ) / 7) (some 100) = some 285 := by
    norm_num [scaleField, pytrunc]
  have e2 : scaleField ((20 : ℚ) / 7) (some 285) = some 814 := by
    norm_num [scaleField, pytrunc]
  have e3 : scaleField ((20 : ℚ) / 7) (some 814) = some 2325 := by
    norm_num [scaleField, pytrunc]
  have e4 : scaleField ((20 : ℚ) / 7) (some 2325) = some 6642 := by
    norm_num [scaleField, pytrunc]
  have e5 : scaleField ((20 : ℚ) / 7) (some 6642) = some 18977 := by
    norm_num [scaleField, pytrunc]
  have e6 : scaleField ((20 : ℚ) / 7) (some 18977) = some 54220 := by
    norm_num [scaleField, pytrunc]
  have e7 : scaleField ((20 : ℚ) / 7) (some 54220) = some 154914 := by
    norm_num [scaleField, pytrunc]
  have hit : (scaleField ((20 : ℚ) / 7))^[7] (some 100) = some 154914 := by
    rw [show (7 : ℕ) = 6 + 1 from rfl, Function.iterate_succ_apply, e1]
    rw [show (6 : ℕ) = 5 + 1 from rfl, Function.iterate_succ_apply, e2]
    rw [show (5 : ℕ) = 4 + 1 from rfl, Function.iterate_succ_apply, e3]
    rw [show (4 : ℕ) = 3 + 1 from rfl, Function.iterate_succ_apply, e4]
    rw [show (3 : ℕ) = 2 + 1 from rfl, Function.iterate_succ_apply, e5]
    rw [show (2 : ℕ) = 1 + 1 from rfl, Function.iterate_succ_apply, e6]
    rw [show (1 : ℕ) = 0 + 1 from rfl, Function.iterate_succ_apply, e7]
    rfl
  rw [hit]
  intro hcontra
  have hx : (154914 : ℚ) = 100 := by injection hcontra
  norm_num at hx

end MealPlanner
